import Mathlib

/-!
Shallow embedding of the guest-kernel bootstrap subsystem (`boot_guest.c`
of the x86 VMM platform layer): ELF segment loading, kernel relocation,
boot-structure construction (command line, e820 memory map, boot-parameter
block).  Machine integers are modelled as `Nat`/`Int` with explicit
reductions modulo `2 ^ 32` (ia32 `uintptr_t` / `unsigned int` / `uint32_t`)
and modulo `2 ^ 64` (`uint64_t`) where wrap-around matters.  Guest physical
memory is a byte map `Nat → Nat`; the page-granular "map, copy, unmap"
callback pattern of `vmm_guest_vspace_touch` is modelled by its net effect
on that map.  External collaborators (guest RAM region tracker, file
system, firmware info service) enter as explicit parameters.
-/

/-- Truncation of an integer to an unsigned 32-bit word, the effect of
ia32 `uintptr_t` / `uint32_t` arithmetic. -/
def w32 (x : Int) : Nat := (x % (4294967296 : Int)).toNat

/-- `uint64_t` subtraction with wrap-around. -/
def sub64 (a b : Nat) : Nat := (((a : Int) - (b : Int)) % (18446744073709551616 : Int)).toNat

/-- Reinterpretation of a value as a signed 32-bit `int`, the effect of the
C cast `(int)((int64_t)load_addr - (int64_t)guest_kernel_addr)`. -/
def toInt32 (x : Int) : Int := (x + 2147483648) % 4294967296 - 2147483648

/-- Little-endian read of a 4-byte word from guest memory: the effect of
`vmm_guest_vspace_touch` with the `guest_elf_read_address` callback, which
`memcpy`s the four bytes at `p` into a host `uint32_t`. -/
def read32 (mem : Nat → Nat) (p : Nat) : Nat :=
  mem p % 256 + mem (p + 1) % 256 * 256 + mem (p + 2) % 256 * 65536 +
    mem (p + 3) % 256 * 16777216

/-- Little-endian write of a 4-byte word to guest memory: the effect of
`vmm_guest_vspace_touch` with the `guest_elf_write_address` callback. -/
def write32 (mem : Nat → Nat) (p v : Nat) : Nat → Nat := fun a =>
  if a = p then v % 256
  else if a = p + 1 then v / 256 % 256
  else if a = p + 2 then v / 65536 % 256
  else if a = p + 3 then v / 16777216 % 256
  else mem a

/-- Net effect of `vmm_guest_vspace_touch` over `[d, d + n)` with a
callback that copies byte `k` of a source buffer to guest physical address
`d + k` (`memcpy(vaddr, cookie + offset, size)` page by page). -/
def writeBytes (mem : Nat → Nat) (d : Nat) (src : Nat → Nat) (n : Nat) : Nat → Nat := fun a =>
  if d ≤ a ∧ a < d + n then src (a - d) else mem a

/-- `guest_image_t`: per-VM record filled in by the loader, relocation
engine and boot-structure builders.  All fields are ia32 machine words
except `relocation_offset`, which the code stores as a signed `int`. -/
structure GuestImage where
  load_paddr : Nat
  link_paddr : Nat
  link_vaddr : Nat
  relocation_offset : Int
  alignment : Nat
  entry : Nat
  cmd_line : Nat
  cmd_line_len : Nat
  boot_info : Nat
  boot_module_paddr : Nat
  boot_module_size : Nat
deriving DecidableEq

/-- How a run of `vmm_plat_guest_elf_relocate` ends.  `panicFileNotFound`
and `panicNoRelocs` are the two `panic()` calls; `readFailed` is the
`ZF_LOGF_IF(result != 1, ...)` fatal log when the backward scan runs past
the front of the file; `assertFailed` is the
`assert(vaddr >= (uint32_t)image->link_vaddr)` failure.  All four halt the
host VMM process. -/
inductive RelocOutcome where
  | noop
  | panicFileNotFound
  | readFailed
  | assertFailed
  | panicNoRelocs
  | ok
deriving DecidableEq

/-- Whether the outcome halts the host VMM process (a `panic`, fatal log
or assertion failure) rather than returning control to the caller. -/
def RelocOutcome.isFatal : RelocOutcome → Bool
  | .panicFileNotFound => true
  | .readFailed => true
  | .assertFailed => true
  | .panicNoRelocs => true
  | _ => false

/-- Result of the relocation engine: how it ended, the final guest memory,
the final `guest_image_t` (the engine only reads it; it is carried through
to state frame properties), whether `fopen` succeeded, and the number of
relocation entries actually processed (the loop counter `i`). -/
structure RelocResult where
  outcome : RelocOutcome
  mem : Nat → Nat
  image : GuestImage
  fileOpened : Bool
  processed : Nat

/-- One 32-bit relocation: `guest_paddr = vaddr - link_vaddr + (load_addr
+ delta)` with `load_addr = image->link_paddr`, then the 4-byte word at
`guest_paddr` is read, incremented by `delta` and written back
(lines 118-130 of the C; ia32 `uintptr_t` arithmetic wraps mod `2^32`). -/
def relocApply (image : GuestImage) (mem : Nat → Nat) (vaddr : Nat) : Nat → Nat :=
  let guest_paddr :=
    w32 ((vaddr : Int) - (image.link_vaddr : Int) +
      ((image.link_paddr : Int) + image.relocation_offset))
  write32 mem guest_paddr (w32 ((read32 mem guest_paddr : Int) + image.relocation_offset))

/-- The backward scan of `vmm_plat_guest_elf_relocate`: the argument list
holds the file's 4-byte little-endian words from the LAST word to the
first (the loop reads at offset `relocs_size - 4*(i+1)`).  A zero word
terminates the scan (`.ok`); exhausting the words means the next `fread`
fails (`.readFailed`); an entry below `(uint32_t)link_vaddr` trips the
assertion (`.assertFailed`).  Returns the final memory, the loop counter
and how the loop ended. -/
def relocScan (image : GuestImage) : List Nat → (Nat → Nat) → Nat → (Nat → Nat) × Nat × RelocOutcome
  | [], mem, i => (mem, i, .readFailed)
  | vaddr :: rest, mem, i =>
    if vaddr = 0 then (mem, i, .ok)
    else if vaddr < image.link_vaddr % 4294967296 then (mem, i, .assertFailed)
    else relocScan image rest (relocApply image mem vaddr) (i + 1)

/-- `vmm_plat_guest_elf_relocate`.  `relocs` is the list of the relocation
file's 4-byte little-endian words in FILE order (so the scan walks its
reverse); `fileExists` models whether `fopen` succeeds.  After a normally
terminated scan the code checks `num_relocations == 0`, where
`num_relocations` is the `uint32_t` value `relocs_size / 4 - 1` computed
from the FILE SIZE (line 102), not from the processed-entry count. -/
def vmm_plat_guest_elf_relocate (image : GuestImage) (fileExists : Bool)
    (relocs : List Nat) (mem : Nat → Nat) : RelocResult :=
  if image.relocation_offset = 0 then
    { outcome := .noop, mem := mem, image := image, fileOpened := false, processed := 0 }
  else if fileExists = false then
    { outcome := .panicFileNotFound, mem := mem, image := image,
      fileOpened := false, processed := 0 }
  else
    match relocScan image relocs.reverse mem 0 with
    | (m, i, RelocOutcome.ok) =>
      if (relocs.length - 1) % 4294967296 = 0 then
        { outcome := .panicNoRelocs, mem := m, image := image,
          fileOpened := true, processed := i }
      else
        { outcome := .ok, mem := m, image := image, fileOpened := true, processed := i }
    | (m, i, oc) =>
      { outcome := oc, mem := m, image := image, fileOpened := true, processed := i }

/-- Outcome of the loader-side routines that report errors by returning
`-1` instead of panicking. -/
inductive BootOutcome where
  | ok
  | errorNotFound
  | errorInvalid
  | errorZeroSize
  | errorAlloc
deriving DecidableEq

/-- Result of `vmm_guest_load_boot_module` / `make_guest_cmd_line` /
`vmm_load_guest_elf`-style routines: the return status, final guest
memory, final `guest_image_t`, plus the number of bytes requested from
`guest_ram_allocate` (0 when no allocation was attempted). -/
structure BootResult where
  outcome : BootOutcome
  mem : Nat → Nat
  image : GuestImage
  allocatedLen : Nat

/-- `vmm_guest_load_boot_module`: `load_addr` is the region tracker's
`guest_ram_largest_free_region_start` result, `fileExists`/`fileSize`
model `fopen`/`ftell`, and `file` the module's bytes.  On success the
module's location and size are recorded and the file's bytes are copied
to `[load_addr, load_addr + fileSize)` page by page. -/
def vmm_guest_load_boot_module (image : GuestImage) (mem : Nat → Nat)
    (fileExists : Bool) (fileSize : Nat) (file : Nat → Nat) (load_addr : Nat) : BootResult :=
  if fileExists = false then
    { outcome := .errorNotFound, mem := mem, image := image, allocatedLen := 0 }
  else if fileSize = 0 then
    { outcome := .errorZeroSize, mem := mem, image := image, allocatedLen := 0 }
  else
    { outcome := .ok,
      mem := writeBytes mem load_addr file fileSize,
      image := { image with boot_module_paddr := load_addr, boot_module_size := fileSize },
      allocatedLen := 0 }

/-- `make_guest_cmd_line`: `cmdline` is the list of the C string's bytes
up to (not including) its NUL terminator, so `cmdline.length = strlen`.
`cmd_addr` is the result of `guest_ram_allocate(&vm->mem, len + 1)` (0 on
allocation failure).  On success the string and its terminator are copied
to guest memory and pointer and length are recorded in the image. -/
def make_guest_cmd_line (image : GuestImage) (mem : Nat → Nat)
    (cmdline : List Nat) (cmd_addr : Nat) : BootResult :=
  let len := cmdline.length
  if cmd_addr = 0 then
    { outcome := .errorAlloc, mem := mem, image := image, allocatedLen := len + 1 }
  else
    { outcome := .ok,
      mem := writeBytes mem cmd_addr (fun k => cmdline.getD k 0) (len + 1),
      image := { image with cmd_line := cmd_addr, cmd_line_len := len },
      allocatedLen := len + 1 }

/-- `e820entry.type` values used by the builder (`E820_RAM` / `E820_RESERVED`). -/
inductive E820Type where
  | ram
  | reserved
deriving DecidableEq

/-- `struct e820entry`: `addr` and `size` are `uint64_t`. -/
structure E820Entry where
  addr : Nat
  size : Nat
  type : E820Type
deriving DecidableEq

/-- A guest RAM region of the region tracker (`vm_mem_t.ram_regions[i]`):
`{start, size}`. -/
structure MemRegion where
  start : Nat
  size : Nat
deriving DecidableEq

/-- Modelled from the spec: the fixed maximum entry count of the embedded
e820 array ("Capacity is bounded (enforced at build time)"); the value 128
is the Linux `E820MAX` convention this table mirrors.  The header defining
it is not part of the sources. -/
def E820MAX : Nat := 128

/-- The region walk of `make_guest_e820_map` (lines 285-307).  State is the
list of finished entries plus the current entry `e820[entry]`.  On a
discontinuity the current entry is finished (unless zero-sized), a
RESERVED entry pads the gap, and a new RAM entry is opened at the region's
start; in all cases the current entry is then extended to the region's
end (`e820[entry].size = r.start - e820[entry].addr + r.size`, `uint64_t`
arithmetic). -/
def e820Loop : List MemRegion → List E820Entry → E820Entry → List E820Entry × E820Entry
  | [], acc, cur => (acc, cur)
  | r :: rs, acc, cur =>
    if cur.addr + cur.size ≠ r.start then
      if cur.size ≠ 0 then
        e820Loop rs
          (acc ++ [cur,
            { addr := cur.addr + cur.size, size := sub64 r.start (cur.addr + cur.size),
              type := .reserved }])
          { addr := r.start, size := sub64 r.start r.start + r.size, type := .ram }
      else
        e820Loop rs
          (acc ++ [{ addr := cur.addr, size := sub64 r.start cur.addr, type := cur.type }])
          { addr := r.start, size := sub64 r.start r.start + r.size, type := .ram }
    else
      e820Loop rs acc
        { addr := cur.addr, size := sub64 r.start cur.addr + r.size, type := cur.type }

/-- `make_guest_e820_map`: starts from a RESERVED entry at address 0, walks
the tracker's regions, then appends a final RESERVED entry up to `2^32`.
Assertion failures abort the process, modelled as `none`:
`assert(num_ram_regions > 0)`; `assert(entry < E820MAX)` after each
increment, which (since `entry` only grows) is equivalent to the final
entry count fitting; and the print loop's
`assert(e820[i].addr < e820[i].addr + e820[i].size)` on every entry
(`uint64_t` addition). -/
def make_guest_e820_map (regions : List MemRegion) : Option (List E820Entry) :=
  if regions.length = 0 then none
  else
    let p := e820Loop regions [] { addr := 0, size := 0, type := .reserved }
    let finEnd := p.2.addr + p.2.size
    let es := p.1 ++ [p.2, { addr := finEnd, size := sub64 4294967296 finEnd, type := .reserved }]
    if es.length ≤ E820MAX ∧
        es.all (fun e => decide (e.addr < (e.addr + e.size) % 18446744073709551616)) then
      some es
    else none

/-- `struct screen_info` as populated by `make_guest_screen_info`; its
contents are driven by the external firmware-info service and are carried
opaquely here. -/
structure ScreenInfo where
  orig_video_isVGA : Nat
  lfb_width : Nat
  lfb_height : Nat
  lfb_depth : Nat
  lfb_base : Nat
  lfb_size : Nat
  lfb_linelength : Nat
deriving DecidableEq

/-- The `setup_header` fields of `struct boot_params` that
`make_guest_boot_info` populates (all others stay zero from the
`memset`). -/
structure SetupHeader where
  header : Nat
  boot_flag : Nat
  type_of_loader : Nat
  code32_start : Nat
  kernel_alignment : Nat
  relocatable_kernel : Bool
  cmd_line_ptr : Nat
  cmdline_size : Nat
  ramdisk_image : Nat
  ramdisk_size : Nat
  root_dev : Nat
  version : Nat
deriving DecidableEq

/-- The parts of `struct boot_params` that `make_guest_boot_info` fills
in. -/
structure BootParams where
  hdr : SetupHeader
  screen_info : ScreenInfo
  e820_entries : Nat
  e820_map : List E820Entry
  alt_mem_k : Nat
deriving DecidableEq

/-- `make_guest_boot_info`: allocates guest RAM for the block (`addr`, 0 on
allocation failure → returns -1), zero-fills the block, populates the
magic constants, loader type, kernel load address and alignment, the
relocatable flag, screen info (from the external firmware service, passed
here as `screen`), the e820 map, command-line pointer and length, and the
ramdisk fields with the version gate.  The assembled block and updated
image are returned; an e820 assertion failure aborts (`none`). -/
def make_guest_boot_info (image : GuestImage) (screen : ScreenInfo)
    (regions : List MemRegion) (addr : Nat) : Option (BootParams × GuestImage) :=
  if addr = 0 then none
  else
    match make_guest_e820_map regions with
    | none => none
    | some es =>
      some
        ({ hdr :=
            { header := 0x53726448
              boot_flag := 0xAA55
              type_of_loader := 0xFF
              code32_start := image.load_paddr
              kernel_alignment := image.alignment
              relocatable_kernel := true
              cmd_line_ptr := image.cmd_line
              cmdline_size := image.cmd_line_len
              ramdisk_image := if image.boot_module_paddr ≠ 0 then
                  image.boot_module_paddr % 4294967296 else 0
              ramdisk_size := if image.boot_module_paddr ≠ 0 then
                  image.boot_module_size else 0
              root_dev := if image.boot_module_paddr ≠ 0 then 0x0100 else 0
              version := if image.boot_module_paddr ≠ 0 then 0x0204 else 0x0202 }
           screen_info := screen
           e820_entries := es.length
           e820_map := es
           alt_mem_k := 0 },
         { image with boot_info := addr })

/-- An ELF program header as read through the `elf_getProgramHeader*`
accessors: type, physical and virtual address, file offset, file size and
memory size. -/
structure ProgramHeader where
  ptype : Nat
  paddr : Nat
  vaddr : Nat
  offset : Nat
  filesz : Nat
  memsz : Nat
deriving DecidableEq

/-- `PT_LOAD` program header type. -/
def PT_LOAD : Nat := 1

/-- The page-by-page copy loop of `vmm_load_guest_segment` (lines
416-468).  `ps` is `vm->mem.page_size` (a shift: the page is `2^ps`
bytes).  Per iteration: `offset = dest_addr mod 2^ps`,
`copy_len = 2^ps - offset`; while file bytes remain, `copy_len` is capped
at `remain` and that many file bytes are copied from `source_offset`;
otherwise the whole rest of the page is `memset` to zero (NOT capped at
the segment end).  The loop runs while `current < segment_size`; each
iteration advances `current` by at least one byte, so fuel
`segment_size` dominates the iteration count and the fuel-out branch is
unreachable from the entry point below. -/
def loadSegLoop (file : Nat → Nat) (ps segment_size : Nat) :
    Nat → (Nat → Nat) → Nat → Nat → Nat → Nat → (Nat → Nat)
  | 0, mem, _, _, _, _ => mem
  | fuel + 1, mem, source_offset, dest_addr, current, remain =>
    if current < segment_size then
      let offset := dest_addr % 2 ^ ps
      let copy_len := 2 ^ ps - offset
      if 0 < remain then
        let copy_len := if remain < copy_len then remain else copy_len
        loadSegLoop file ps segment_size fuel
          (writeBytes mem dest_addr (fun k => file (source_offset + k)) copy_len)
          (source_offset + copy_len) (dest_addr + copy_len) (current + copy_len)
          (remain - copy_len)
      else
        loadSegLoop file ps segment_size fuel
          (writeBytes mem dest_addr (fun _ => 0) copy_len)
          source_offset (dest_addr + copy_len) (current + copy_len) remain
    else mem

/-- `vmm_load_guest_segment`: copies `file_size` bytes of the ELF file
starting at `source_offset` to guest physical `[dest_addr, ...)` and
zero-fills up to `segment_size` (page-granular; the final `memset` runs to
the end of the page).  The external cslot/frame-cap plumbing always
succeeds here; `assert(file_size <= segment_size)` is a theorem-side
hypothesis. -/
def vmm_load_guest_segment (mem file : Nat → Nat)
    (ps source_offset dest_addr segment_size file_size : Nat) : Nat → Nat :=
  loadSegLoop file ps segment_size segment_size mem source_offset dest_addr 0 file_size

/-- One step of the loader's minimum scan: skip non-`PT_LOAD` headers,
otherwise keep the smaller of the accumulator and `g h` truncated to
`uint32_t`. -/
def minLoadStep (g : ProgramHeader → Nat) (acc : Nat) (h : ProgramHeader) : Nat :=
  if h.ptype = PT_LOAD then
    (if g h % 4294967296 < acc then g h % 4294967296 else acc)
  else acc

/-- The loader's minimum scan (lines 507-521): fold over the program
headers in order, starting from `0xFFFFFFFF`. -/
def minLoadFold (g : ProgramHeader → Nat) (hs : List ProgramHeader) : Nat :=
  hs.foldl (minLoadStep g) 4294967295

/-- The segment-loading loop of `vmm_load_guest_elf` (lines 532-562):
headers in order; non-`PT_LOAD` and zero-`segment_size` headers are
skipped; otherwise the segment is loaded at
`dest_addr = paddr + guest_relocation_offset` (`seL4_Word` arithmetic, mod
`2^32`; `file_size`/`segment_size` are `unsigned int`).  The
`guest_ram_mark_allocated` bookkeeping lives in the external region
tracker and has no effect on the modelled state. -/
def loadAllSegments (file : Nat → Nat) (ps : Nat) (off : Int) :
    List ProgramHeader → (Nat → Nat) → (Nat → Nat)
  | [], mem => mem
  | h :: t, mem =>
    if h.ptype = PT_LOAD ∧ h.memsz % 4294967296 ≠ 0 then
      loadAllSegments file ps off t
        (vmm_load_guest_segment mem file ps (h.offset % 4294967296)
          (w32 ((h.paddr : Int) + off)) (h.memsz % 4294967296) (h.filesz % 4294967296))
    else loadAllSegments file ps off t mem

/-- `ROUND_UP(x, n)` from the utils library: `((x + n - 1) / n) * n`. -/
def roundUpAlign (x n : Nat) : Nat := (x + n - 1) / n * n

/-- `vmm_load_guest_elf`: opens the ELF (`fileExists`), parses headers
(`parseOk` models `vmm_read_elf_headers`), takes the largest free
guest-RAM region start (`freeStart`, from the external tracker) rounded up
to `alignment` as the load address, computes `link` addresses as the
minima over `PT_LOAD` headers, the relocation offset as the `int` cast of
their 64-bit difference, loads every `PT_LOAD` segment, and records entry
point and layout in the image. -/
def vmm_load_guest_elf (fileExists parseOk : Bool) (hs : List ProgramHeader)
    (elf_entry : Nat) (file : Nat → Nat) (freeStart alignment ps : Nat)
    (mem : Nat → Nat) (image : GuestImage) : BootOutcome × (Nat → Nat) × GuestImage :=
  if fileExists = false then (.errorNotFound, mem, image)
  else if parseOk = false then (.errorInvalid, mem, image)
  else
    let load_addr := roundUpAlign freeStart alignment
    let guest_kernel_addr := minLoadFold (fun h => h.paddr) hs
    let guest_kernel_vaddr := minLoadFold (fun h => h.vaddr) hs
    let guest_relocation_offset := toInt32 ((load_addr : Int) - (guest_kernel_addr : Int))
    let mem2 := loadAllSegments file ps guest_relocation_offset hs mem
    (.ok, mem2,
      { image with
        entry := w32 ((elf_entry % 4294967296 : Nat) + guest_relocation_offset)
        load_paddr := load_addr
        link_paddr := guest_kernel_addr
        link_vaddr := guest_kernel_vaddr
        relocation_offset := guest_relocation_offset
        alignment := alignment })

/-- `chainFrom a es`: the entries of `es` tile an interval starting at
`a`: each entry starts where its predecessor ended. -/
def chainFrom : Nat → List E820Entry → Prop
  | _, [] => True
  | a, e :: t => e.addr = a ∧ chainFrom (e.addr + e.size) t

/-- Well-formedness of the region tracker's snapshot from a lower bound:
regions are sorted, non-overlapping and of positive size (the tracker's
documented invariant). -/
def regionsOK : Nat → List MemRegion → Prop
  | _, [] => True
  | lo, r :: rs => lo ≤ r.start ∧ 0 < r.size ∧ regionsOK (r.start + r.size) rs

/-- End address of the last region, or the default `d` for an empty list. -/
def endOfRegions : Nat → List MemRegion → Nat
  | d, [] => d
  | _, r :: rs => endOfRegions (r.start + r.size) rs

/-- Membership of byte address `a` in some RAM-typed e820 entry. -/
def inRam (es : List E820Entry) (a : Nat) : Prop :=
  ∃ e ∈ es, e.type = E820Type.ram ∧ e.addr ≤ a ∧ a < e.addr + e.size

/-- Membership of byte address `a` in some tracker region. -/
def inRegions (rs : List MemRegion) (a : Nat) : Prop :=
  ∃ r ∈ rs, r.start ≤ a ∧ a < r.start + r.size

/-- Smallest multiple of `2 ^ ps` that is `≥ n`. -/
def alignUp2 (n ps : Nat) : Nat := n + (2 ^ ps - n % 2 ^ ps) % 2 ^ ps

/-- Largest multiple of `2 ^ ps` that is `≤ n`. -/
def alignDown2 (n ps : Nat) : Nat := n - n % 2 ^ ps

/-- Concrete fixtures used by witnesses and counterexamples. -/
def imageZero : GuestImage :=
  { load_paddr := 0, link_paddr := 0, link_vaddr := 0, relocation_offset := 0,
    alignment := 0, entry := 0, cmd_line := 0, cmd_line_len := 0, boot_info := 0,
    boot_module_paddr := 0, boot_module_size := 0 }

/-- A `guest_image_t` whose relocation offset is the (nonzero) value 1. -/
def imageDeltaOne : GuestImage := { imageZero with relocation_offset := 1 }

/-- The image of the spec's relocation example: linked at
vaddr/paddr `0x00100000`, loaded at `0x00200000`, offset `0x00100000`. -/
def imageC2 : GuestImage :=
  { imageZero with
    load_paddr := 2097152
    link_paddr := 1048576
    link_vaddr := 1048576
    relocation_offset := 1048576 }

/-- All-zero guest memory. -/
def memZero : Nat → Nat := fun _ => 0

/-- Guest memory with every byte `0x11` (so every aligned 32-bit word
reads `0x11111111`). -/
def memSeventeen : Nat → Nat := fun _ => 17

/-- All-zero screen info ("no graphics"). -/
def screenZero : ScreenInfo :=
  { orig_video_isVGA := 0, lfb_width := 0, lfb_height := 0, lfb_depth := 0,
    lfb_base := 0, lfb_size := 0, lfb_linelength := 0 }

/-- The bytes of the C string `"console=ttyS0"` (length 13). -/
def consoleBytes : List Nat := [99, 111, 110, 115, 111, 108, 101, 61, 116, 116, 121, 83, 48]

/-- The boot-parameter block assembled for `imageZero`, `screenZero` and a
single RAM region `[0x1000, 0x2000)`. -/
def bootParamsExample : BootParams :=
  { hdr :=
      { header := 0x53726448, boot_flag := 0xAA55, type_of_loader := 0xFF,
        code32_start := 0, kernel_alignment := 0, relocatable_kernel := true,
        cmd_line_ptr := 0, cmdline_size := 0, ramdisk_image := 0,
        ramdisk_size := 0, root_dev := 0, version := 0x0202 }
    screen_info := screenZero
    e820_entries := 3
    e820_map :=
      [{ addr := 0, size := 4096, type := .reserved },
       { addr := 4096, size := 4096, type := .ram },
       { addr := 8192, size := 4294959104, type := .reserved }]
    alt_mem_k := 0 }

/-- End address of the last entry of `l`, or `b` for an empty list. -/
def listEnd : Nat → List E820Entry → Nat
  | b, [] => b
  | _, e :: t => listEnd (e.addr + e.size) t

/-- A file whose every byte is 7. -/
def fileSeven : Nat → Nat := fun _ => 7

/-- A `PT_LOAD` header destined for byte 2 of the first page: one file
byte at file offset 100, memory size 1. -/
def hdrHigh : ProgramHeader :=
  { ptype := 1, paddr := 2, vaddr := 2, offset := 100, filesz := 1, memsz := 1 }

/-- A `PT_LOAD` header destined for byte 0 of the first page: no file
bytes, memory size 1 (pure BSS). -/
def hdrLow : ProgramHeader :=
  { ptype := 1, paddr := 0, vaddr := 0, offset := 0, filesz := 0, memsz := 1 }

/-- A `PT_LOAD` header with zero memory size (skipped by the copy loop but
counted by the link-address minimum scan). -/
def hdrMin : ProgramHeader :=
  { ptype := 1, paddr := 0, vaddr := 0, offset := 0, filesz := 0, memsz := 0 }

/-- A `PT_LOAD` header at paddr 2 with one file byte and one BSS byte. -/
def hdrW : ProgramHeader :=
  { ptype := 1, paddr := 2, vaddr := 2, offset := 100, filesz := 1, memsz := 2 }

/-- C6: with `relocation_offset == 0`, `vmm_plat_guest_elf_relocate`
returns immediately: the file is never opened, guest memory and the
`guest_image_t` are untouched, and no entry is processed — for any
relocation-file contents. -/
theorem c6_relocate_noop_when_offset_zero (image : GuestImage) (fileExists : Bool)
    (relocs : List Nat) (mem : Nat → Nat) (h : image.relocation_offset = 0) :
    vmm_plat_guest_elf_relocate image fileExists relocs mem =
      { outcome := .noop, mem := mem, image := image, fileOpened := false, processed := 0 } := by
  simp [vmm_plat_guest_elf_relocate, h]

/-- Witness for C6 at a concrete image, file and memory. -/
theorem c6_witness :
    vmm_plat_guest_elf_relocate imageZero true [5, 0] memZero =
      { outcome := .noop, mem := memZero, image := imageZero,
        fileOpened := false, processed := 0 } :=
  c6_relocate_noop_when_offset_zero imageZero true [5, 0] memZero rfl

/-- C9: whenever `make_guest_boot_info` assembles a boot-parameter block,
its header magic is `0x53726448` ('HdrS') and its boot flag `0xAA55`,
regardless of the VM configuration. -/
theorem c9_boot_params_magic (image : GuestImage) (screen : ScreenInfo)
    (regions : List MemRegion) (addr : Nat) (bp : BootParams) (img2 : GuestImage)
    (h : make_guest_boot_info image screen regions addr = some (bp, img2)) :
    bp.hdr.header = 0x53726448 ∧ bp.hdr.boot_flag = 0xAA55 := by
  unfold make_guest_boot_info at h
  split at h
  · exact absurd h (by simp)
  · split at h
    · exact absurd h (by simp)
    · simp only [Option.some.injEq, Prod.mk.injEq] at h
      obtain ⟨h1, -⟩ := h
      subst h1
      exact ⟨rfl, rfl⟩

/-- Witness for C9 at a concrete configuration. -/
theorem c9_witness :
    bootParamsExample.hdr.header = 0x53726448 ∧ bootParamsExample.hdr.boot_flag = 0xAA55 :=
  c9_boot_params_magic imageZero screenZero [{ start := 4096, size := 4096 }] 36864
    bootParamsExample { imageZero with boot_info := 36864 } (by decide)

/-- C8: for a NUL-terminated command line whose guest allocation succeeds,
`make_guest_cmd_line` requests exactly `strlen + 1` bytes from
`guest_ram_allocate`, records the allocated address and the length
`strlen` in the image, and writes the string's bytes followed by one zero
byte at the allocated guest-physical address. -/
theorem c8_cmdline_copy (image : GuestImage) (mem : Nat → Nat)
    (cmdline : List Nat) (cmd_addr : Nat) (h : cmd_addr ≠ 0) :
    (make_guest_cmd_line image mem cmdline cmd_addr).outcome = BootOutcome.ok ∧
    (make_guest_cmd_line image mem cmdline cmd_addr).allocatedLen = cmdline.length + 1 ∧
    (make_guest_cmd_line image mem cmdline cmd_addr).image.cmd_line = cmd_addr ∧
    (make_guest_cmd_line image mem cmdline cmd_addr).image.cmd_line_len = cmdline.length ∧
    (∀ k, k < cmdline.length →
      (make_guest_cmd_line image mem cmdline cmd_addr).mem (cmd_addr + k) = cmdline.getD k 0) ∧
    (make_guest_cmd_line image mem cmdline cmd_addr).mem (cmd_addr + cmdline.length) = 0 := by
  have hm : make_guest_cmd_line image mem cmdline cmd_addr =
      { outcome := .ok,
        mem := writeBytes mem cmd_addr (fun k => cmdline.getD k 0) (cmdline.length + 1),
        image := { image with cmd_line := cmd_addr, cmd_line_len := cmdline.length },
        allocatedLen := cmdline.length + 1 } := by
    unfold make_guest_cmd_line
    rw [if_neg h]
  rw [hm]
  refine ⟨rfl, rfl, rfl, rfl, ?_, ?_⟩
  · intro k hk
    show writeBytes mem cmd_addr (fun k => cmdline.getD k 0) (cmdline.length + 1)
      (cmd_addr + k) = cmdline.getD k 0
    unfold writeBytes
    rw [if_pos ⟨Nat.le_add_right _ _, by omega⟩, Nat.add_sub_cancel_left]
  · show writeBytes mem cmd_addr (fun k => cmdline.getD k 0) (cmdline.length + 1)
      (cmd_addr + cmdline.length) = 0
    unfold writeBytes
    rw [if_pos ⟨Nat.le_add_right _ _, by omega⟩, Nat.add_sub_cancel_left]
    exact List.getD_eq_default _ _ (Nat.le_refl _)

/-- Witness for C8: the spec's `"console=ttyS0"` example (length 13)
allocates 14 bytes, and the written guest bytes are the string's bytes
followed by a zero byte. -/
theorem c8_witness :
    (make_guest_cmd_line imageZero memZero consoleBytes 4096).allocatedLen = 14 ∧
    (make_guest_cmd_line imageZero memZero consoleBytes 4096).image.cmd_line_len = 13 ∧
    (make_guest_cmd_line imageZero memZero consoleBytes 4096).mem 4096 = 99 ∧
    (make_guest_cmd_line imageZero memZero consoleBytes 4096).mem 4108 = 48 ∧
    (make_guest_cmd_line imageZero memZero consoleBytes 4096).mem 4109 = 0 := by
  have h := c8_cmdline_copy imageZero memZero consoleBytes 4096 (by decide)
  obtain ⟨-, h1, -, h2, h3, h4⟩ := h
  refine ⟨by simpa using h1, by simpa using h2, ?_, ?_, by simpa using h4⟩
  · have := h3 0 (by decide)
    simpa using this
  · have := h3 12 (by decide)
    simpa using this

/-- C1 counterexample: an image requiring relocation and a relocation file
of two 4-byte words `{0, 0}`.  The backward scan hits the 32-bit zero
terminator immediately, so zero usable entries are processed, yet the
engine returns normally (`.ok`) instead of panicking, because the panic
test uses `relocs_size / 4 - 1 = 1 ≠ 0` computed from the file size. -/
theorem c1_counterexample :
    imageDeltaOne.relocation_offset ≠ 0 ∧
    (vmm_plat_guest_elf_relocate imageDeltaOne true [0, 0] memZero).processed = 0 ∧
    (vmm_plat_guest_elf_relocate imageDeltaOne true [0, 0] memZero).outcome = RelocOutcome.ok ∧
    RelocOutcome.ok ≠ RelocOutcome.panicNoRelocs := by
  refine ⟨by decide, by decide, by decide, by decide⟩

/-- C1 amended: when relocation is required and the backward scan
terminates at once (the file's last 4-byte word is the zero terminator,
so zero usable entries are processed), the engine panics if and only if
the file consists of exactly one 4-byte word — the check uses
`num_relocations = relocs_size/4 - 1`, a file-size count, not the
processed-entry count. -/
theorem c1_zero_entries_panic_iff_single_word (image : GuestImage)
    (relocs : List Nat) (mem : Nat → Nat)
    (h0 : image.relocation_offset ≠ 0)
    (hlast : relocs.getLast? = some 0)
    (hlen : relocs.length ≤ 4294967296) :
    (vmm_plat_guest_elf_relocate image true relocs mem).processed = 0 ∧
    ((vmm_plat_guest_elf_relocate image true relocs mem).outcome = RelocOutcome.panicNoRelocs
      ↔ relocs.length = 1) := by
  have hrev : relocs.reverse.head? = some 0 := by
    rw [List.head?_reverse]
    exact hlast
  have hlen1 : 1 ≤ relocs.length := by
    cases relocs with
    | nil => simp at hlast
    | cons a t => simp
  obtain ⟨t, ht⟩ : ∃ t, relocs.reverse = 0 :: t := by
    cases hr : relocs.reverse with
    | nil => rw [hr] at hrev; simp at hrev
    | cons a t =>
      rw [hr] at hrev
      simp only [List.head?_cons, Option.some.injEq] at hrev
      exact ⟨t, by rw [hrev]⟩
  have hscan : relocScan image relocs.reverse mem 0 = (mem, 0, RelocOutcome.ok) := by
    rw [ht]; simp [relocScan]
  have hres : vmm_plat_guest_elf_relocate image true relocs mem =
      (if (relocs.length - 1) % 4294967296 = 0 then
        { outcome := .panicNoRelocs, mem := mem, image := image,
          fileOpened := true, processed := 0 }
      else
        { outcome := .ok, mem := mem, image := image, fileOpened := true, processed := 0 }) := by
    unfold vmm_plat_guest_elf_relocate
    rw [if_neg h0, if_neg (by simp : ¬(true = false)), hscan]
  have hmod : (relocs.length - 1) % 4294967296 = relocs.length - 1 :=
    Nat.mod_eq_of_lt (by omega)
  rw [hres, hmod]
  rcases Nat.eq_or_lt_of_le hlen1 with h1 | h1
  · rw [if_pos (by omega)]
    exact ⟨rfl, iff_of_true rfl (by omega)⟩
  · rw [if_neg (by omega)]
    exact ⟨rfl, iff_of_false (fun hco => RelocOutcome.noConfusion hco) (by omega)⟩

/-- Witness for C1's amended statement: a one-word file `{0}` makes the
engine panic; the processed count is zero. -/
theorem c1_witness :
    (vmm_plat_guest_elf_relocate imageDeltaOne true [0] memZero).processed = 0 ∧
    ((vmm_plat_guest_elf_relocate imageDeltaOne true [0] memZero).outcome =
        RelocOutcome.panicNoRelocs
      ↔ ([0] : List Nat).length = 1) :=
  c1_zero_entries_panic_iff_single_word imageDeltaOne [0] memZero (by decide) (by decide)
    (by decide)

/-- C2 counterexample: with the spec's parameters and the relocation
file's words `{0x00100010, 0x00100020, 0}` in exactly that FILE order, the
backward scan reads the trailing zero word first and terminates: zero
entries are processed (the claim says exactly 2) and the 32-bit word at
guest-physical `0x00200010` keeps its old value `0x11111111` instead of
being incremented by `0x00100000`. -/
theorem c2_counterexample :
    (vmm_plat_guest_elf_relocate imageC2 true [1048592, 1048608, 0] memSeventeen).processed
        = 0 ∧
    (0 : Nat) ≠ 2 ∧
    read32 (vmm_plat_guest_elf_relocate imageC2 true [1048592, 1048608, 0] memSeventeen).mem
        2097168 = 286331153 ∧
    (286331153 : Nat) ≠ 286331153 + 1048576 := by
  refine ⟨by decide, by decide, by decide, by decide⟩

/-- C2 amended: with the zero terminator FIRST in the file (the layout the
relocs format actually uses: the 32-bit entries follow their terminator,
so the backward scan meets them before the zero), file words
`{0, 0x00100010, 0x00100020}`, `link_vaddr = link_paddr = 0x00100000`,
`load_paddr = 0x00200000`, `relocation_offset = 0x00100000`: the engine
processes exactly 2 entries and adds `0x00100000` to the 32-bit words at
guest-physical `0x00200010` and `0x00200020`. -/
theorem c2_terminator_first_processes_two :
    (vmm_plat_guest_elf_relocate imageC2 true [0, 1048592, 1048608] memSeventeen).outcome
        = RelocOutcome.ok ∧
    (vmm_plat_guest_elf_relocate imageC2 true [0, 1048592, 1048608] memSeventeen).processed
        = 2 ∧
    read32 (vmm_plat_guest_elf_relocate imageC2 true [0, 1048592, 1048608] memSeventeen).mem
        2097168 = 286331153 + 1048576 ∧
    read32 (vmm_plat_guest_elf_relocate imageC2 true [0, 1048592, 1048608] memSeventeen).mem
        2097184 = 286331153 + 1048576 := by
  refine ⟨by decide, by decide, by decide, by decide⟩

/-- C7 counterexample: when the relocation table is missing but relocation
is required, `vmm_plat_guest_elf_relocate` calls `panic()` — a host-fatal
stop, not an error return, contradicting the claim that every
missing-input-file case aborts VM boot without crashing the host
process. -/
theorem c7_counterexample :
    (vmm_plat_guest_elf_relocate imageDeltaOne false [0] memZero).outcome =
      RelocOutcome.panicFileNotFound ∧
    RelocOutcome.isFatal RelocOutcome.panicFileNotFound = true := by
  refine ⟨by decide, by decide⟩

/-- C7 amended: a missing guest-kernel ELF and a missing boot module are
reported by an error return (`-1`), aborting VM boot without taking the
host down; a missing relocation table when relocation is required
(`relocation_offset != 0`) instead panics, halting the host VMM process. -/
theorem c7_missing_file_behaviour (image1 image2 image3 : GuestImage)
    (mem1 mem2 mem3 : Nat → Nat) (hs : List ProgramHeader) (elf_entry : Nat)
    (file1 file2 : Nat → Nat) (freeStart alignment ps fileSize load_addr : Nat)
    (relocs : List Nat) (parseOk : Bool)
    (hoff : image3.relocation_offset ≠ 0) :
    (vmm_load_guest_elf false parseOk hs elf_entry file1 freeStart alignment ps
        mem1 image1).1 = BootOutcome.errorNotFound ∧
    (vmm_guest_load_boot_module image2 mem2 false fileSize file2 load_addr).outcome =
      BootOutcome.errorNotFound ∧
    (vmm_plat_guest_elf_relocate image3 false relocs mem3).outcome =
        RelocOutcome.panicFileNotFound ∧
    RelocOutcome.isFatal RelocOutcome.panicFileNotFound = true := by
  refine ⟨rfl, rfl, ?_, rfl⟩
  unfold vmm_plat_guest_elf_relocate
  rw [if_neg hoff]
  rfl

/-- Witness for C7's amended statement at concrete inputs. -/
theorem c7_witness :
    (vmm_load_guest_elf false true [] 0 memZero 0 1 12 memZero imageZero).1 =
      BootOutcome.errorNotFound ∧
    (vmm_guest_load_boot_module imageZero memZero false 8 memZero 4096).outcome =
      BootOutcome.errorNotFound ∧
    (vmm_plat_guest_elf_relocate imageDeltaOne false [0] memZero).outcome =
        RelocOutcome.panicFileNotFound ∧
    RelocOutcome.isFatal RelocOutcome.panicFileNotFound = true :=
  c7_missing_file_behaviour imageZero imageZero imageDeltaOne memZero memZero memZero
    [] 0 memZero memZero 0 1 12 8 4096 [0] true (by decide)

/-- `sub64` is plain subtraction when no underflow occurs and the
difference fits in 64 bits. -/
theorem sub64_eq_sub (a b : Nat) (hle : b ≤ a) (hlt : a - b < 18446744073709551616) :
    sub64 a b = a - b := by
  unfold sub64
  omega

/-- `sub64 a a = 0`. -/
theorem sub64_self (a : Nat) : sub64 a a = 0 := by
  unfold sub64
  omega

/-- The end of a list with a last element appended. -/
theorem listEnd_concat (b : Nat) (l : List E820Entry) (e : E820Entry) :
    listEnd b (l ++ [e]) = e.addr + e.size := by
  induction l generalizing b with
  | nil => rfl
  | cons x t ih => exact ih _

/-- Appending an entry that starts at the list's end preserves the
chain. -/
theorem chainFrom_concat (b : Nat) (l : List E820Entry) (e : E820Entry)
    (hc : chainFrom b l) (he : e.addr = listEnd b l) : chainFrom b (l ++ [e]) := by
  induction l generalizing b with
  | nil => exact ⟨he, trivial⟩
  | cons x t ih => exact ⟨hc.1, ih _ hc.2 he⟩

/-- Replacing the final entry by one with the same start address
preserves the chain. -/
theorem chainFrom_update_last (b : Nat) (l : List E820Entry) (e e2 : E820Entry)
    (hc : chainFrom b (l ++ [e])) (ha : e2.addr = e.addr) : chainFrom b (l ++ [e2]) := by
  induction l generalizing b with
  | nil => exact ⟨ha.trans hc.1, trivial⟩
  | cons x t ih => exact ⟨hc.1, ih _ hc.2⟩

/-- Every entry of a chain starts at or after the chain's base. -/
theorem chainFrom_mem_le (b : Nat) (l : List E820Entry) (hc : chainFrom b l) :
    ∀ e ∈ l, b ≤ e.addr := by
  induction l generalizing b with
  | nil => intro e he; simp at he
  | cons x t ih =>
    intro e he
    rcases List.mem_cons.mp he with h | h
    · subst h; exact le_of_eq hc.1.symm
    · have h2 := ih (x.addr + x.size) hc.2 e h
      have h3 := hc.1
      omega

/-- A chain is exactly the indexed abutting property: each entry ends
where the next begins. -/
theorem chainFrom_get (l : List E820Entry) : ∀ b, chainFrom b l →
    ∀ i, (h : i + 1 < l.length) →
      (l.get ⟨i, by omega⟩).addr + (l.get ⟨i, by omega⟩).size = (l.get ⟨i + 1, h⟩).addr := by
  induction l with
  | nil => intro b _ i h; simp at h
  | cons x t ih =>
    intro b hc i h
    cases i with
    | zero =>
      cases t with
      | nil => simp at h
      | cons y t2 => exact hc.2.1.symm
    | succ j =>
      exact ih (x.addr + x.size) hc.2 j (by simpa using h)

/-- Structural invariant of the e820 region walk: starting from a current
entry of positive size whose end meets the (sorted, in-range) remaining
regions, the final current entry has positive size, ends exactly at the
last region's end (still within `2^32`), and the finished-plus-current
entry list remains a chain. -/
theorem e820Loop_invariant (rs : List MemRegion) :
    ∀ (acc : List E820Entry) (cur : E820Entry),
      0 < cur.size →
      regionsOK (cur.addr + cur.size) rs →
      (∀ r ∈ rs, r.start + r.size ≤ 4294967296) →
      cur.addr + cur.size ≤ 4294967296 →
      0 < (e820Loop rs acc cur).2.size ∧
      (e820Loop rs acc cur).2.addr + (e820Loop rs acc cur).2.size
        = endOfRegions (cur.addr + cur.size) rs ∧
      (e820Loop rs acc cur).2.addr + (e820Loop rs acc cur).2.size ≤ 4294967296 ∧
      (∀ b, chainFrom b (acc ++ [cur]) →
        chainFrom b ((e820Loop rs acc cur).1 ++ [(e820Loop rs acc cur).2])) := by
  induction rs with
  | nil =>
    intro acc cur h1 _ _ h4
    exact ⟨h1, rfl, h4, fun b hb => hb⟩
  | cons r rs ih =>
    intro acc cur h1 h2 h3 h4
    obtain ⟨hstart, hrsize, hrest⟩ := h2
    have hrbound : r.start + r.size ≤ 4294967296 := h3 r (List.mem_cons_self r rs)
    have h3t : ∀ x ∈ rs, x.start + x.size ≤ 4294967296 :=
      fun x hx => h3 x (List.mem_cons_of_mem r hx)
    by_cases hd : cur.addr + cur.size = r.start
    · -- contiguous region: the current entry is extended in place
      have hloop : e820Loop (r :: rs) acc cur = e820Loop rs acc
          { addr := cur.addr, size := sub64 r.start cur.addr + r.size, type := cur.type } := by
        simp only [e820Loop]
        rw [if_neg (not_not_intro hd)]
      have hsub : sub64 r.start cur.addr = r.start - cur.addr :=
        sub64_eq_sub _ _ (by omega) (by omega)
      have hend : cur.addr + (sub64 r.start cur.addr + r.size) = r.start + r.size := by
        rw [hsub]; omega
      rw [hloop]
      obtain ⟨g1, g2, g3, g4⟩ := ih acc
        { addr := cur.addr, size := sub64 r.start cur.addr + r.size, type := cur.type }
        (by simp only; omega)
        (by simpa only [hend] using hrest)
        h3t
        (by simpa only [hend] using hrbound)
      refine ⟨g1, ?_, g3, ?_⟩
      · rw [g2]
        show endOfRegions (cur.addr + (sub64 r.start cur.addr + r.size)) rs
          = endOfRegions (r.start + r.size) rs
        rw [hend]
      · intro b hb
        exact g4 b (chainFrom_update_last b acc cur _ hb rfl)
    · -- discontinuity: close the current entry, pad, open a RAM entry
      have hloop : e820Loop (r :: rs) acc cur = e820Loop rs
          (acc ++ [cur,
            { addr := cur.addr + cur.size, size := sub64 r.start (cur.addr + cur.size),
              type := .reserved }])
          { addr := r.start, size := sub64 r.start r.start + r.size, type := .ram } := by
        simp only [e820Loop]
        rw [if_pos hd, if_pos (by omega : cur.size ≠ 0)]
      have hsub : sub64 r.start (cur.addr + cur.size) = r.start - (cur.addr + cur.size) :=
        sub64_eq_sub _ _ (by omega) (by omega)
      have hsz : sub64 r.start r.start + r.size = r.size := by rw [sub64_self]; omega
      rw [hloop]
      obtain ⟨g1, g2, g3, g4⟩ := ih _
        { addr := r.start, size := sub64 r.start r.start + r.size, type := .ram }
        (by simp only [hsz]; omega)
        (by simpa only [hsz] using hrest)
        h3t
        (by simpa only [hsz] using hrbound)
      refine ⟨g1, ?_, g3, ?_⟩
      · rw [g2]
        show endOfRegions (r.start + (sub64 r.start r.start + r.size)) rs
          = endOfRegions (r.start + r.size) rs
        rw [hsz]
      · intro b hb
        apply g4 b
        have hstep1 : chainFrom b ((acc ++ [cur]) ++
            [{ addr := cur.addr + cur.size, size := sub64 r.start (cur.addr + cur.size),
               type := E820Type.reserved }]) := by
          apply chainFrom_concat b (acc ++ [cur]) _ hb
          rw [listEnd_concat]
        have heq : acc ++ [cur,
            { addr := cur.addr + cur.size, size := sub64 r.start (cur.addr + cur.size),
              type := E820Type.reserved }] = (acc ++ [cur]) ++
            [{ addr := cur.addr + cur.size, size := sub64 r.start (cur.addr + cur.size),
               type := E820Type.reserved }] := by
          simp
        rw [heq]
        apply chainFrom_concat b _ _ hstep1
        rw [listEnd_concat]
        simp only
        rw [hsub]
        omega

/-- RAM membership splits over list append. -/
theorem inRam_append (l1 l2 : List E820Entry) (a : Nat) :
    inRam (l1 ++ l2) a ↔ (inRam l1 a ∨ inRam l2 a) := by
  simp [inRam, List.mem_append, or_and_right, exists_or]

/-- RAM membership in a singleton. -/
theorem inRam_singleton (e : E820Entry) (a : Nat) :
    inRam [e] a ↔ (e.type = E820Type.ram ∧ e.addr ≤ a ∧ a < e.addr + e.size) := by
  simp [inRam]

/-- No address lies in the RAM entries of the empty list. -/
theorem inRam_nil (a : Nat) : ¬ inRam [] a := by
  simp [inRam]

/-- RAM membership unfolds over cons. -/
theorem inRam_cons (e : E820Entry) (l : List E820Entry) (a : Nat) :
    inRam (e :: l) a ↔
      ((e.type = E820Type.ram ∧ e.addr ≤ a ∧ a < e.addr + e.size) ∨ inRam l a) := by
  simp [inRam, List.mem_cons, or_and_right, exists_or, exists_eq_left]

/-- `inRam []` as an iff, for rewriting. -/
theorem inRam_nil_iff (a : Nat) : inRam [] a ↔ False := by
  simp [inRam]

/-- Region membership unfolds over cons. -/
theorem inRegions_cons (r : MemRegion) (rs : List MemRegion) (a : Nat) :
    inRegions (r :: rs) a ↔ ((r.start ≤ a ∧ a < r.start + r.size) ∨ inRegions rs a) := by
  simp [inRegions, List.mem_cons, or_and_right, exists_or, exists_eq_left]

/-- No address lies in the empty region list. -/
theorem inRegions_nil (a : Nat) : ¬ inRegions [] a := by
  simp [inRegions]

/-- RAM-union invariant of the e820 region walk: starting from a RAM-typed
current entry, the walk's output covers exactly the old RAM coverage plus
the remaining regions, and the final current entry is RAM-typed. -/
theorem e820Loop_ram_union (rs : List MemRegion) :
    ∀ (acc : List E820Entry) (cur : E820Entry),
      0 < cur.size →
      cur.type = E820Type.ram →
      regionsOK (cur.addr + cur.size) rs →
      (∀ r ∈ rs, r.start + r.size ≤ 4294967296) →
      cur.addr + cur.size ≤ 4294967296 →
      (e820Loop rs acc cur).2.type = E820Type.ram ∧
      (∀ a, inRam ((e820Loop rs acc cur).1 ++ [(e820Loop rs acc cur).2]) a
        ↔ (inRam (acc ++ [cur]) a ∨ inRegions rs a)) := by
  induction rs with
  | nil =>
    intro acc cur _ ht _ _ _
    exact ⟨ht, fun a => by simp [e820Loop, inRegions]⟩
  | cons r rs ih =>
    intro acc cur h1 ht h2 h3 h4
    obtain ⟨hstart, hrsize, hrest⟩ := h2
    have hrbound : r.start + r.size ≤ 4294967296 := h3 r (List.mem_cons_self r rs)
    have h3t : ∀ x ∈ rs, x.start + x.size ≤ 4294967296 :=
      fun x hx => h3 x (List.mem_cons_of_mem r hx)
    by_cases hd : cur.addr + cur.size = r.start
    · -- contiguous region: the RAM entry is extended
      have hloop : e820Loop (r :: rs) acc cur = e820Loop rs acc
          { addr := cur.addr, size := sub64 r.start cur.addr + r.size, type := cur.type } := by
        simp only [e820Loop]
        rw [if_neg (not_not_intro hd)]
      have hsub : sub64 r.start cur.addr = r.start - cur.addr :=
        sub64_eq_sub _ _ (by omega) (by omega)
      have hsz : sub64 r.start cur.addr + r.size = cur.size + r.size := by
        rw [hsub]; omega
      have hend : cur.addr + (sub64 r.start cur.addr + r.size) = r.start + r.size := by
        rw [hsub]; omega
      rw [hloop]
      obtain ⟨g1, g2⟩ := ih acc
        { addr := cur.addr, size := sub64 r.start cur.addr + r.size, type := cur.type }
        (by simp only [hsz]; omega)
        (by simpa only using ht)
        (by simpa only [hend] using hrest)
        h3t
        (by simpa only [hend] using hrbound)
      refine ⟨g1, fun a => ?_⟩
      rw [g2 a, inRegions_cons]
      have hiff : inRam (acc ++
          [{ addr := cur.addr, size := sub64 r.start cur.addr + r.size, type := cur.type }]) a
          ↔ (inRam (acc ++ [cur]) a ∨ (r.start ≤ a ∧ a < r.start + r.size)) := by
        rw [inRam_append, inRam_append, inRam_singleton, inRam_singleton]
        simp only [ht]
        have harith : (cur.addr ≤ a ∧ a < cur.addr + (sub64 r.start cur.addr + r.size)) ↔
            ((cur.addr ≤ a ∧ a < cur.addr + cur.size) ∨
              (r.start ≤ a ∧ a < r.start + r.size)) := by
          rw [hsz]; omega
        tauto
      rw [hiff]
      tauto
    · -- discontinuity: finish the RAM entry, add a RESERVED pad, open a RAM entry
      have hloop : e820Loop (r :: rs) acc cur = e820Loop rs
          (acc ++ [cur,
            { addr := cur.addr + cur.size, size := sub64 r.start (cur.addr + cur.size),
              type := .reserved }])
          { addr := r.start, size := sub64 r.start r.start + r.size, type := .ram } := by
        simp only [e820Loop]
        rw [if_pos hd, if_pos (by omega : cur.size ≠ 0)]
      have hsz : sub64 r.start r.start + r.size = r.size := by
        rw [sub64_self]; omega
      rw [hloop]
      obtain ⟨g1, g2⟩ := ih _
        { addr := r.start, size := sub64 r.start r.start + r.size, type := .ram }
        (by simp only [hsz]; omega)
        rfl
        (by simpa only [hsz] using hrest)
        h3t
        (by simpa only [hsz] using hrbound)
      refine ⟨g1, fun a => ?_⟩
      rw [g2 a, inRegions_cons]
      have hexp : inRam ((acc ++ [cur,
          { addr := cur.addr + cur.size, size := sub64 r.start (cur.addr + cur.size),
            type := E820Type.reserved }]) ++
          [{ addr := r.start, size := sub64 r.start r.start + r.size, type := E820Type.ram }]) a
          ↔ (inRam (acc ++ [cur]) a ∨ (r.start ≤ a ∧ a < r.start + r.size)) := by
        simp only [inRam_append, inRam_cons, inRam_nil_iff, hsz]
        simp
      rw [hexp]
      tauto

/-- The e820 walk only appends to the finished-entry list. -/
theorem e820Loop_acc_extend (rs : List MemRegion) :
    ∀ (acc : List E820Entry) (cur : E820Entry),
      ∃ l, (e820Loop rs acc cur).1 = acc ++ l := by
  induction rs with
  | nil =>
    intro acc cur
    exact ⟨[], by simp [e820Loop]⟩
  | cons r rs ih =>
    intro acc cur
    by_cases hd : cur.addr + cur.size = r.start
    · have hloop : e820Loop (r :: rs) acc cur = e820Loop rs acc
          { addr := cur.addr, size := sub64 r.start cur.addr + r.size, type := cur.type } := by
        simp only [e820Loop]
        rw [if_neg (not_not_intro hd)]
      rw [hloop]
      exact ih acc _
    · by_cases hz : cur.size = 0
      · have hloop : e820Loop (r :: rs) acc cur = e820Loop rs
            (acc ++ [{ addr := cur.addr, size := sub64 r.start cur.addr, type := cur.type }])
            { addr := r.start, size := sub64 r.start r.start + r.size, type := .ram } := by
          simp only [e820Loop]
          rw [if_pos hd, if_neg (not_not_intro hz)]
        rw [hloop]
        obtain ⟨l, hl⟩ := ih
          (acc ++ [{ addr := cur.addr, size := sub64 r.start cur.addr, type := cur.type }]) _
        exact ⟨_, by rw [hl, List.append_assoc]⟩
      · have hloop : e820Loop (r :: rs) acc cur = e820Loop rs
            (acc ++ [cur,
              { addr := cur.addr + cur.size, size := sub64 r.start (cur.addr + cur.size),
                type := .reserved }])
            { addr := r.start, size := sub64 r.start r.start + r.size, type := .ram } := by
          simp only [e820Loop]
          rw [if_pos hd, if_pos hz]
        rw [hloop]
        obtain ⟨l, hl⟩ := ih
          (acc ++ [cur,
            { addr := cur.addr + cur.size, size := sub64 r.start (cur.addr + cur.size),
              type := .reserved }]) _
        exact ⟨_, by rw [hl, List.append_assoc]⟩

/-- Starting from an empty finished list, the first entry of the walk's
output keeps the initial current entry's address and type, and its size
only grows. -/
theorem e820Loop_head_nil (rs : List MemRegion) :
    ∀ (cur : E820Entry),
      0 < cur.size →
      regionsOK (cur.addr + cur.size) rs →
      (∀ r ∈ rs, r.start + r.size ≤ 4294967296) →
      cur.addr + cur.size ≤ 4294967296 →
      ∃ e2 l2, (e820Loop rs [] cur).1 ++ [(e820Loop rs [] cur).2] = e2 :: l2 ∧
        e2.addr = cur.addr ∧ e2.type = cur.type ∧ cur.size ≤ e2.size := by
  induction rs with
  | nil =>
    intro cur h1 _ _ _
    exact ⟨cur, [], by simp [e820Loop], rfl, rfl, Nat.le_refl _⟩
  | cons r rs ih =>
    intro cur h1 h2 h3 h4
    obtain ⟨hstart, hrsize, hrest⟩ := h2
    have hrbound : r.start + r.size ≤ 4294967296 := h3 r (List.mem_cons_self r rs)
    have h3t : ∀ x ∈ rs, x.start + x.size ≤ 4294967296 :=
      fun x hx => h3 x (List.mem_cons_of_mem r hx)
    by_cases hd : cur.addr + cur.size = r.start
    · have hloop : e820Loop (r :: rs) [] cur = e820Loop rs []
          { addr := cur.addr, size := sub64 r.start cur.addr + r.size, type := cur.type } := by
        simp only [e820Loop]
        rw [if_neg (not_not_intro hd)]
      have hsub : sub64 r.start cur.addr = r.start - cur.addr :=
        sub64_eq_sub _ _ (by omega) (by omega)
      have hsz : sub64 r.start cur.addr + r.size = cur.size + r.size := by
        rw [hsub]; omega
      have hend : cur.addr + (sub64 r.start cur.addr + r.size) = r.start + r.size := by
        rw [hsub]; omega
      rw [hloop]
      obtain ⟨e2, l2, hl, ha, ht2, hs2⟩ := ih
        { addr := cur.addr, size := sub64 r.start cur.addr + r.size, type := cur.type }
        (by simp only [hsz]; omega)
        (by simpa only [hend] using hrest)
        h3t
        (by simpa only [hend] using hrbound)
      exact ⟨e2, l2, hl, ha, ht2, by simp only [hsz] at hs2; omega⟩
    · have hloop : e820Loop (r :: rs) [] cur = e820Loop rs
          ([] ++ [cur,
            { addr := cur.addr + cur.size, size := sub64 r.start (cur.addr + cur.size),
              type := .reserved }])
          { addr := r.start, size := sub64 r.start r.start + r.size, type := .ram } := by
        simp only [e820Loop]
        rw [if_pos hd, if_pos (by omega : cur.size ≠ 0)]
      rw [hloop]
      obtain ⟨l, hl⟩ := e820Loop_acc_extend rs
        ([] ++ [cur,
          { addr := cur.addr + cur.size, size := sub64 r.start (cur.addr + cur.size),
            type := .reserved }])
        { addr := r.start, size := sub64 r.start r.start + r.size, type := .ram }
      refine ⟨cur,
        ({ addr := cur.addr + cur.size, size := sub64 r.start (cur.addr + cur.size), type := E820Type.reserved } :: l) ++
            [(e820Loop rs
              ([] ++ [cur, { addr := cur.addr + cur.size, size := sub64 r.start (cur.addr + cur.size), type := E820Type.reserved }])
              { addr := r.start, size := sub64 r.start r.start + r.size, type := E820Type.ram }).2],
        ?_, rfl, rfl, Nat.le_refl _⟩
      rw [hl]
      simp

/-- Unfolding of a successful `make_guest_e820_map` run: the entry list is
the walk's finished entries, the final current entry, and the closing
RESERVED entry up to `2^32`. -/
theorem make_guest_e820_map_eq (regions : List MemRegion) (es : List E820Entry)
    (h : make_guest_e820_map regions = some es) :
    es = (e820Loop regions [] { addr := 0, size := 0, type := E820Type.reserved }).1 ++
      [(e820Loop regions [] { addr := 0, size := 0, type := E820Type.reserved }).2,
       { addr := (e820Loop regions [] { addr := 0, size := 0, type := E820Type.reserved }).2.addr
           + (e820Loop regions [] { addr := 0, size := 0, type := E820Type.reserved }).2.size,
         size := sub64 4294967296
           ((e820Loop regions [] { addr := 0, size := 0, type := E820Type.reserved }).2.addr
             + (e820Loop regions [] { addr := 0, size := 0, type := E820Type.reserved }).2.size),
         type := E820Type.reserved }] := by
  unfold make_guest_e820_map at h
  split at h
  · exact absurd h (by simp)
  · dsimp only at h
    split at h
    · simp only [Option.some.injEq] at h
      exact h.symm
    · exact absurd h (by simp)

/-- C3 counterexample: the single RAM region `[0, 0x1000)` starting at
address 0 is absorbed into the initial RESERVED entry, so the produced map
has no RAM entry at all: the union of RAM-typed entries does not equal the
union of the input regions. -/
theorem c3_counterexample :
    make_guest_e820_map [{ start := 0, size := 4096 }] =
      some [{ addr := 0, size := 4096, type := E820Type.reserved },
            { addr := 4096, size := 4294963200, type := E820Type.reserved }] ∧
    inRegions [{ start := 0, size := 4096 }] 0 ∧
    ¬ inRam [{ addr := 0, size := 4096, type := E820Type.reserved },
             { addr := 4096, size := 4294963200, type := E820Type.reserved }] 0 := by
  refine ⟨by decide, ?_, ?_⟩
  · simp [inRegions]
  · simp [inRam]

/-- C3 amended: for a non-empty, sorted, non-overlapping region list whose
regions are in range and start strictly above address 0, a produced map
starts at address 0, its consecutive entries abut exactly, its last entry
ends at `2^32`, the union of its RAM-typed entries equals the union of the
input regions, and the spec's single-region example produces exactly the
three expected entries.  (A region starting at 0 is folded into the
initial RESERVED entry, which is what the counterexample exhibits.) -/
theorem c3_e820_partition (regions : List MemRegion) (es : List E820Entry)
    (hne : regions ≠ [])
    (hok : regionsOK 1 regions)
    (hbound : ∀ r ∈ regions, r.start + r.size ≤ 4294967296)
    (hsome : make_guest_e820_map regions = some es) :
    (∃ e0 tl, es = e0 :: tl ∧ e0.addr = 0) ∧
    (∀ i, (h : i + 1 < es.length) →
      (es.get ⟨i, by omega⟩).addr + (es.get ⟨i, by omega⟩).size = (es.get ⟨i + 1, h⟩).addr) ∧
    (∃ elast, es.getLast? = some elast ∧ elast.addr + elast.size = 4294967296) ∧
    (∀ a, inRam es a ↔ inRegions regions a) ∧
    make_guest_e820_map [{ start := 1048576, size := 1048576 }] =
      some [{ addr := 0, size := 1048576, type := E820Type.reserved },
            { addr := 1048576, size := 1048576, type := E820Type.ram },
            { addr := 2097152, size := 4292870144, type := E820Type.reserved }] := by
  obtain ⟨r0, rs, rfl⟩ : ∃ r0 rs, regions = r0 :: rs := by
    cases regions with
    | nil => exact absurd rfl hne
    | cons a t => exact ⟨a, t, rfl⟩
  obtain ⟨hr0start, hr0size, hrest⟩ := hok
  have hr0bound : r0.start + r0.size ≤ 4294967296 := hbound r0 (List.mem_cons_self _ _)
  have hbt : ∀ x ∈ rs, x.start + x.size ≤ 4294967296 :=
    fun x hx => hbound x (List.mem_cons_of_mem _ hx)
  have hstep : e820Loop (r0 :: rs) [] { addr := 0, size := 0, type := E820Type.reserved }
      = e820Loop rs [{ addr := 0, size := r0.start, type := E820Type.reserved }]
        { addr := r0.start, size := r0.size, type := E820Type.ram } := by
    simp only [e820Loop]
    rw [if_pos (by simp; omega), if_neg (by simp)]
    rw [sub64_self, sub64_eq_sub r0.start 0 (Nat.zero_le _) (by omega)]
    simp
  have hA := e820Loop_invariant rs [{ addr := 0, size := r0.start, type := E820Type.reserved }]
      { addr := r0.start, size := r0.size, type := E820Type.ram } hr0size hrest hbt hr0bound
  obtain ⟨gpos, gend, gbound, gchain⟩ := hA
  have hchainbase : chainFrom 0
      ([{ addr := 0, size := r0.start, type := E820Type.reserved }] ++
        [{ addr := r0.start, size := r0.size, type := E820Type.ram }]) := by
    exact ⟨rfl, by simp, trivial⟩
  have hchain := gchain 0 hchainbase
  obtain ⟨gtype, gunion⟩ := e820Loop_ram_union rs
    [{ addr := 0, size := r0.start, type := E820Type.reserved }]
    { addr := r0.start, size := r0.size, type := E820Type.ram } hr0size rfl hrest hbt hr0bound
  have hes := make_guest_e820_map_eq _ _ hsome
  rw [hstep] at hes
  set q := e820Loop rs [{ addr := 0, size := r0.start, type := E820Type.reserved }]
    { addr := r0.start, size := r0.size, type := E820Type.ram } with hq
  set E := q.2.addr + q.2.size with hE
  set fin : E820Entry := { addr := E, size := sub64 4294967296 E, type := E820Type.reserved }
    with hfin
  have hEle : E ≤ 4294967296 := gbound
  have hfinsub : sub64 4294967296 E = 4294967296 - E :=
    sub64_eq_sub _ _ hEle (by omega)
  have hchain2 : chainFrom 0 ((q.1 ++ [q.2]) ++ [fin]) := by
    apply chainFrom_concat 0 _ _ hchain
    rw [listEnd_concat]
  have hchaines : chainFrom 0 es := by
    rw [hes]
    have h2 := hchain2
    rw [List.append_assoc] at h2
    exact h2
  refine ⟨?_, ?_, ?_, ?_, by decide⟩
  · cases hc : es with
    | nil => rw [hc] at hes; exact absurd hes.symm (by simp)
    | cons e0 tl =>
      refine ⟨e0, tl, rfl, ?_⟩
      rw [hc] at hchaines
      exact hchaines.1
  · exact chainFrom_get es 0 hchaines
  · refine ⟨fin, ?_, ?_⟩
    · rw [hes]
      rw [List.getLast?_append_of_ne_nil _ (by simp : ([q.2, fin] : List E820Entry) ≠ [])]
      rfl
    · show E + sub64 4294967296 E = 4294967296
      rw [hfinsub]
      omega
  · intro a
    rw [hes]
    have hsplit : inRam (q.1 ++ [q.2, fin]) a ↔ (inRam (q.1 ++ [q.2]) a ∨ inRam [fin] a) := by
      show inRam (q.1 ++ ([q.2] ++ [fin])) a ↔ (inRam (q.1 ++ [q.2]) a ∨ inRam [fin] a)
      rw [← List.append_assoc]
      exact inRam_append _ _ a
    rw [hsplit, inRam_singleton, gunion a, inRegions_cons]
    have hfin_not : ¬ (fin.type = E820Type.ram) := by
      rw [hfin]
      simp
    have hbase : inRam ([{ addr := 0, size := r0.start, type := E820Type.reserved }] ++
        [{ addr := r0.start, size := r0.size, type := E820Type.ram }]) a ↔
        (r0.start ≤ a ∧ a < r0.start + r0.size) := by
      rw [inRam_append, inRam_singleton, inRam_singleton]
      simp
    rw [hbase]
    tauto

/-- Witness for C3's amended statement at the spec's example region
`[0x100000, 0x200000)`. -/
theorem c3_witness :
    (∃ e0 tl,
      ([{ addr := 0, size := 1048576, type := E820Type.reserved },
        { addr := 1048576, size := 1048576, type := E820Type.ram },
        { addr := 2097152, size := 4292870144, type := E820Type.reserved }] : List E820Entry)
        = e0 :: tl ∧ e0.addr = 0) ∧
    (∀ i, (h : i + 1 <
        ([{ addr := 0, size := 1048576, type := E820Type.reserved },
          { addr := 1048576, size := 1048576, type := E820Type.ram },
          { addr := 2097152, size := 4292870144, type := E820Type.reserved }] : List E820Entry).length) →
      (([{ addr := 0, size := 1048576, type := E820Type.reserved },
         { addr := 1048576, size := 1048576, type := E820Type.ram },
         { addr := 2097152, size := 4292870144, type := E820Type.reserved }] : List E820Entry).get
           ⟨i, by omega⟩).addr +
        (([{ addr := 0, size := 1048576, type := E820Type.reserved },
           { addr := 1048576, size := 1048576, type := E820Type.ram },
           { addr := 2097152, size := 4292870144, type := E820Type.reserved }] : List E820Entry).get
             ⟨i, by omega⟩).size =
        (([{ addr := 0, size := 1048576, type := E820Type.reserved },
           { addr := 1048576, size := 1048576, type := E820Type.ram },
           { addr := 2097152, size := 4292870144, type := E820Type.reserved }] : List E820Entry).get
             ⟨i + 1, h⟩).addr) ∧
    (∃ elast,
      ([{ addr := 0, size := 1048576, type := E820Type.reserved },
        { addr := 1048576, size := 1048576, type := E820Type.ram },
        { addr := 2097152, size := 4292870144, type := E820Type.reserved }] : List E820Entry).getLast?
        = some elast ∧ elast.addr + elast.size = 4294967296) ∧
    (∀ a, inRam
        [{ addr := 0, size := 1048576, type := E820Type.reserved },
         { addr := 1048576, size := 1048576, type := E820Type.ram },
         { addr := 2097152, size := 4292870144, type := E820Type.reserved }] a
      ↔ inRegions [{ start := 1048576, size := 1048576 }] a) ∧
    make_guest_e820_map [{ start := 1048576, size := 1048576 }] =
      some [{ addr := 0, size := 1048576, type := E820Type.reserved },
            { addr := 1048576, size := 1048576, type := E820Type.ram },
            { addr := 2097152, size := 4292870144, type := E820Type.reserved }] :=
  c3_e820_partition [{ start := 1048576, size := 1048576 }]
    [{ addr := 0, size := 1048576, type := E820Type.reserved },
     { addr := 1048576, size := 1048576, type := E820Type.ram },
     { addr := 2097152, size := 4292870144, type := E820Type.reserved }]
    (by simp) (by simp [regionsOK]) (by decide) (by decide)

/-- C10: for any produced map, the first entry starts at address 0 and is
RESERVED; if the first RAM region itself starts at address 0, its bytes
are folded into that RESERVED entry (the entry grows to at least the
region's size and every RAM-typed entry starts at or beyond it), so they
are reported to the guest as RESERVED, not RAM. -/
theorem c10_first_entry_reserved (r0 : MemRegion) (rs : List MemRegion)
    (es : List E820Entry) (e0 : E820Entry) (tl : List E820Entry)
    (hok : regionsOK 0 (r0 :: rs))
    (hbound : ∀ r ∈ r0 :: rs, r.start + r.size ≤ 4294967296)
    (hsome : make_guest_e820_map (r0 :: rs) = some es)
    (hes : es = e0 :: tl) :
    e0.addr = 0 ∧ e0.type = E820Type.reserved ∧
    (r0.start = 0 → r0.size ≤ e0.size ∧
      ∀ e ∈ tl, e.type = E820Type.ram → r0.size ≤ e.addr) := by
  obtain ⟨hr0start, hr0size, hrest⟩ := hok
  have hr0bound : r0.start + r0.size ≤ 4294967296 := hbound r0 (List.mem_cons_self _ _)
  have hbt : ∀ x ∈ rs, x.start + x.size ≤ 4294967296 :=
    fun x hx => hbound x (List.mem_cons_of_mem _ hx)
  have hmap := make_guest_e820_map_eq _ _ hsome
  by_cases h0 : r0.start = 0
  · -- the region starting at 0 extends the initial RESERVED entry in place
    have hstep : e820Loop (r0 :: rs) [] { addr := 0, size := 0, type := E820Type.reserved }
        = e820Loop rs [] { addr := 0, size := r0.size, type := E820Type.reserved } := by
      simp only [e820Loop]
      rw [if_neg (not_not_intro (by simp; omega))]
      rw [h0, sub64_self]
      simp
    rw [hstep] at hmap
    have hrest0 : regionsOK (0 + r0.size) rs := by
      rw [h0] at hrest
      exact hrest
    have hbound0 : 0 + r0.size ≤ 4294967296 := by omega
    obtain ⟨e2, l2, hl, ha, ht2, hs2⟩ := e820Loop_head_nil rs
      { addr := 0, size := r0.size, type := E820Type.reserved } hr0size hrest0 hbt hbound0
    obtain ⟨gpos, gend, gbound, gchain⟩ := e820Loop_invariant rs []
      { addr := 0, size := r0.size, type := E820Type.reserved } hr0size hrest0 hbt hbound0
    have hchain := gchain 0 ⟨rfl, trivial⟩
    have hchain2 : chainFrom 0
        (((e820Loop rs [] { addr := 0, size := r0.size, type := E820Type.reserved }).1 ++
          [(e820Loop rs [] { addr := 0, size := r0.size, type := E820Type.reserved }).2]) ++
          [{ addr := (e820Loop rs [] { addr := 0, size := r0.size, type := E820Type.reserved }).2.addr
              + (e820Loop rs [] { addr := 0, size := r0.size, type := E820Type.reserved }).2.size,
             size := sub64 4294967296
              ((e820Loop rs [] { addr := 0, size := r0.size, type := E820Type.reserved }).2.addr
                + (e820Loop rs [] { addr := 0, size := r0.size, type := E820Type.reserved }).2.size),
             type := E820Type.reserved }]) := by
      apply chainFrom_concat 0 _ _ hchain
      rw [listEnd_concat]
    rw [hl] at hchain2
    rw [hes] at hmap
    rw [show (e820Loop rs [] { addr := 0, size := r0.size, type := E820Type.reserved }).1 ++
        [(e820Loop rs [] { addr := 0, size := r0.size, type := E820Type.reserved }).2,
         { addr := (e820Loop rs [] { addr := 0, size := r0.size, type := E820Type.reserved }).2.addr
             + (e820Loop rs [] { addr := 0, size := r0.size, type := E820Type.reserved }).2.size,
           size := sub64 4294967296
             ((e820Loop rs [] { addr := 0, size := r0.size, type := E820Type.reserved }).2.addr
               + (e820Loop rs [] { addr := 0, size := r0.size, type := E820Type.reserved }).2.size),
           type := E820Type.reserved }] =
        ((e820Loop rs [] { addr := 0, size := r0.size, type := E820Type.reserved }).1 ++
          [(e820Loop rs [] { addr := 0, size := r0.size, type := E820Type.reserved }).2]) ++
          [{ addr := (e820Loop rs [] { addr := 0, size := r0.size, type := E820Type.reserved }).2.addr
              + (e820Loop rs [] { addr := 0, size := r0.size, type := E820Type.reserved }).2.size,
             size := sub64 4294967296
              ((e820Loop rs [] { addr := 0, size := r0.size, type := E820Type.reserved }).2.addr
                + (e820Loop rs [] { addr := 0, size := r0.size, type := E820Type.reserved }).2.size),
             type := E820Type.reserved }] from by simp] at hmap
    rw [hl] at hmap
    rw [show ((e2 :: l2) ++
        [{ addr := (e820Loop rs [] { addr := 0, size := r0.size, type := E820Type.reserved }).2.addr
            + (e820Loop rs [] { addr := 0, size := r0.size, type := E820Type.reserved }).2.size,
           size := sub64 4294967296
            ((e820Loop rs [] { addr := 0, size := r0.size, type := E820Type.reserved }).2.addr
              + (e820Loop rs [] { addr := 0, size := r0.size, type := E820Type.reserved }).2.size),
           type := E820Type.reserved }]) = e2 :: (l2 ++
        [{ addr := (e820Loop rs [] { addr := 0, size := r0.size, type := E820Type.reserved }).2.addr
            + (e820Loop rs [] { addr := 0, size := r0.size, type := E820Type.reserved }).2.size,
           size := sub64 4294967296
            ((e820Loop rs [] { addr := 0, size := r0.size, type := E820Type.reserved }).2.addr
              + (e820Loop rs [] { addr := 0, size := r0.size, type := E820Type.reserved }).2.size),
           type := E820Type.reserved }]) from by simp] at hmap
    injection hmap with h1 h2
    subst h1
    refine ⟨ha, ht2, fun _ => ⟨hs2, ?_⟩⟩
    intro e hemem hetype
    have hchain3 := hchain2
    have hmem := chainFrom_mem_le (e0.addr + e0.size) _ hchain3.2 e (by rw [h2] at hemem; exact hemem)
    have ha2 : e0.addr = 0 := by simpa using ha
    have hs2n : r0.size ≤ e0.size := by simpa using hs2
    omega
  · -- the first region starts above 0: a RESERVED pad entry is created first
    have hstep : e820Loop (r0 :: rs) [] { addr := 0, size := 0, type := E820Type.reserved }
        = e820Loop rs [{ addr := 0, size := r0.start, type := E820Type.reserved }]
          { addr := r0.start, size := r0.size, type := E820Type.ram } := by
      simp only [e820Loop]
      rw [if_pos (by simp; omega), if_neg (by simp)]
      rw [sub64_self, sub64_eq_sub r0.start 0 (Nat.zero_le _) (by omega)]
      simp
    rw [hstep] at hmap
    obtain ⟨l, hl⟩ := e820Loop_acc_extend rs
      [{ addr := 0, size := r0.start, type := E820Type.reserved }]
      { addr := r0.start, size := r0.size, type := E820Type.ram }
    rw [hes] at hmap
    rw [hl] at hmap
    simp only [List.cons_append, List.nil_append, List.append_assoc] at hmap
    injection hmap with h1 h2
    subst h1
    exact ⟨rfl, rfl, fun hc => absurd hc h0⟩

/-- Witness for C10: a single RAM region starting at address 0 is
reported entirely inside the first (RESERVED) map entry. -/
theorem c10_witness :
    ({ addr := 0, size := 4096, type := E820Type.reserved } : E820Entry).addr = 0 ∧
    ({ addr := 0, size := 4096, type := E820Type.reserved } : E820Entry).type
      = E820Type.reserved ∧
    (({ start := 0, size := 4096 } : MemRegion).start = 0 →
      ({ start := 0, size := 4096 } : MemRegion).size ≤
        ({ addr := 0, size := 4096, type := E820Type.reserved } : E820Entry).size ∧
      ∀ e ∈ [({ addr := 4096, size := 4294963200, type := E820Type.reserved } : E820Entry)],
        e.type = E820Type.ram →
          ({ start := 0, size := 4096 } : MemRegion).size ≤ e.addr) :=
  c10_first_entry_reserved { start := 0, size := 4096 } []
    [{ addr := 0, size := 4096, type := E820Type.reserved },
     { addr := 4096, size := 4294963200, type := E820Type.reserved }]
    { addr := 0, size := 4096, type := E820Type.reserved }
    [{ addr := 4096, size := 4294963200, type := E820Type.reserved }]
    (by simp [regionsOK]) (by decide) (by decide) rfl

/-- The minimum scan is a lower bound on every `PT_LOAD` header's value
and is attained at some `PT_LOAD` header (or stays at its start value). -/
theorem minLoadFold_spec (g : ProgramHeader → Nat) :
    ∀ (hs : List ProgramHeader) (init : Nat),
      hs.foldl (minLoadStep g) init ≤ init ∧
      (∀ h ∈ hs, h.ptype = PT_LOAD → hs.foldl (minLoadStep g) init ≤ g h % 4294967296) ∧
      (hs.foldl (minLoadStep g) init = init ∨
        ∃ h ∈ hs, h.ptype = PT_LOAD ∧ hs.foldl (minLoadStep g) init = g h % 4294967296) := by
  intro hs
  induction hs with
  | nil =>
    intro init
    exact ⟨Nat.le_refl _, by simp, Or.inl rfl⟩
  | cons h0 t ih =>
    intro init
    obtain ⟨i1, i2, i3⟩ := ih (minLoadStep g init h0)
    have hstep_le : minLoadStep g init h0 ≤ init := by
      unfold minLoadStep
      split_ifs <;> omega
    have hstep_pt : h0.ptype = PT_LOAD → minLoadStep g init h0 ≤ g h0 % 4294967296 := by
      intro hp
      unfold minLoadStep
      rw [if_pos hp]
      split_ifs <;> omega
    refine ⟨?_, ?_, ?_⟩
    · simp only [List.foldl_cons]
      exact i1.trans hstep_le
    · intro h hmem hp
      simp only [List.foldl_cons]
      rcases List.mem_cons.mp hmem with he | he
      · subst he
        exact i1.trans (hstep_pt hp)
      · exact i2 h he hp
    · simp only [List.foldl_cons]
      rcases i3 with h | ⟨h, hm, hp, he⟩
      · by_cases hp0 : h0.ptype = PT_LOAD
        · by_cases hlt : g h0 % 4294967296 < init
          · refine Or.inr ⟨h0, List.mem_cons_self _ _, hp0, ?_⟩
            rw [h]
            unfold minLoadStep
            rw [if_pos hp0, if_pos hlt]
          · refine Or.inl ?_
            rw [h]
            unfold minLoadStep
            rw [if_pos hp0, if_neg hlt]
        · refine Or.inl ?_
          rw [h]
          unfold minLoadStep
          rw [if_neg hp0]
      · exact Or.inr ⟨h, List.mem_cons_of_mem _ hm, hp, he⟩

/-- `ROUND_UP(x, n)` is the least multiple of `n` that is at least `x`. -/
theorem roundUpAlign_spec (x n : Nat) (hn : 0 < n) :
    n ∣ roundUpAlign x n ∧ x ≤ roundUpAlign x n ∧ roundUpAlign x n < x + n := by
  unfold roundUpAlign
  have hdm := Nat.div_add_mod (x + n - 1) n
  have hmlt : (x + n - 1) % n < n := Nat.mod_lt _ hn
  have hcomm : (x + n - 1) / n * n = n * ((x + n - 1) / n) := Nat.mul_comm _ _
  refine ⟨Nat.dvd_mul_left n _, ?_, ?_⟩ <;> rw [hcomm] <;> omega

/-- The `int` cast is the identity inside the signed 32-bit range. -/
theorem toInt32_eq (x : Int) (h1 : -2147483648 ≤ x) (h2 : x < 2147483648) :
    toInt32 x = x := by
  unfold toInt32
  omega

/-- `w32` of a value already inside the 32-bit range. -/
theorem w32_inrange (x : Int) (h1 : 0 ≤ x) (h2 : x < 4294967296) :
    (w32 x : Int) = x := by
  unfold w32
  omega

/-- C5 amended: after a successful `vmm_load_guest_elf`, `link_paddr` and
`link_vaddr` are the minima over exactly the `PT_LOAD` headers,
`load_paddr` is the tracker's largest-free-region start rounded up to the
requested alignment (the least such multiple), the recorded alignment is
the requested one, and — provided the 64-bit difference fits a signed
32-bit `int` and the relocated entry point stays inside the 32-bit
address space — `relocation_offset = load_paddr - link_paddr` exactly and
`entry = elf_entry + relocation_offset` exactly. -/
theorem c5_loader_image_fields (hs : List ProgramHeader) (elf_entry : Nat)
    (file : Nat → Nat) (freeStart alignment ps : Nat) (mem : Nat → Nat) (image : GuestImage)
    (load link : Nat) (off : Int)
    (hload : load = roundUpAlign freeStart alignment)
    (hlink : link = minLoadFold (fun h => h.paddr) hs)
    (hoff : off = toInt32 ((load : Int) - (link : Int)))
    (hld : ∃ h ∈ hs, h.ptype = PT_LOAD)
    (hpb : ∀ h ∈ hs, h.paddr < 4294967296)
    (hvb : ∀ h ∈ hs, h.vaddr < 4294967296)
    (halign : 0 < alignment)
    (hlo : -2147483648 ≤ (load : Int) - (link : Int))
    (hhi : (load : Int) - (link : Int) < 2147483648)
    (hent1 : elf_entry < 4294967296)
    (hent2 : 0 ≤ (elf_entry : Int) + off)
    (hent3 : (elf_entry : Int) + off < 4294967296) :
    (vmm_load_guest_elf true true hs elf_entry file freeStart alignment ps mem image).1
      = BootOutcome.ok ∧
    (∀ h ∈ hs, h.ptype = PT_LOAD →
      (vmm_load_guest_elf true true hs elf_entry file freeStart alignment ps mem
        image).2.2.link_paddr ≤ h.paddr) ∧
    (∃ h ∈ hs, h.ptype = PT_LOAD ∧
      (vmm_load_guest_elf true true hs elf_entry file freeStart alignment ps mem
        image).2.2.link_paddr = h.paddr) ∧
    (∀ h ∈ hs, h.ptype = PT_LOAD →
      (vmm_load_guest_elf true true hs elf_entry file freeStart alignment ps mem
        image).2.2.link_vaddr ≤ h.vaddr) ∧
    (∃ h ∈ hs, h.ptype = PT_LOAD ∧
      (vmm_load_guest_elf true true hs elf_entry file freeStart alignment ps mem
        image).2.2.link_vaddr = h.vaddr) ∧
    (vmm_load_guest_elf true true hs elf_entry file freeStart alignment ps mem
      image).2.2.load_paddr = load ∧
    alignment ∣ load ∧ freeStart ≤ load ∧ load < freeStart + alignment ∧
    (vmm_load_guest_elf true true hs elf_entry file freeStart alignment ps mem
      image).2.2.relocation_offset = (load : Int) - (link : Int) ∧
    ((vmm_load_guest_elf true true hs elf_entry file freeStart alignment ps mem
      image).2.2.entry : Int) = (elf_entry : Int) +
      (vmm_load_guest_elf true true hs elf_entry file freeStart alignment ps mem
        image).2.2.relocation_offset ∧
    (vmm_load_guest_elf true true hs elf_entry file freeStart alignment ps mem
      image).2.2.alignment = alignment := by
  subst hoff
  subst hload
  subst hlink
  obtain ⟨ra, rb, rc⟩ := roundUpAlign_spec freeStart alignment halign
  obtain ⟨p1, p2, p3⟩ := minLoadFold_spec (fun h => h.paddr) hs 4294967295
  obtain ⟨v1, v2, v3⟩ := minLoadFold_spec (fun h => h.vaddr) hs 4294967295
  have hoffval : toInt32 ((roundUpAlign freeStart alignment : Int) -
      (minLoadFold (fun h => h.paddr) hs : Int)) =
      (roundUpAlign freeStart alignment : Int) - (minLoadFold (fun h => h.paddr) hs : Int) :=
    toInt32_eq _ hlo hhi
  refine ⟨rfl, ?_, ?_, ?_, ?_, rfl, ra, rb, rc, ?_, ?_, rfl⟩
  · intro h hm hp
    show minLoadFold (fun h => h.paddr) hs ≤ h.paddr
    have hle := p2 h hm hp
    have hb := hpb h hm
    rw [Nat.mod_eq_of_lt hb] at hle
    exact hle
  · rcases p3 with heq | ⟨h, hm, hp, he⟩
    · obtain ⟨h0, hm0, hp0⟩ := hld
      have hle := p2 h0 hm0 hp0
      have hb := hpb h0 hm0
      refine ⟨h0, hm0, hp0, ?_⟩
      rw [Nat.mod_eq_of_lt hb] at hle
      show minLoadFold (fun h => h.paddr) hs = h0.paddr
      unfold minLoadFold
      omega
    · refine ⟨h, hm, hp, ?_⟩
      have hb := hpb h hm
      rw [Nat.mod_eq_of_lt hb] at he
      show minLoadFold (fun h => h.paddr) hs = h.paddr
      exact he
  · intro h hm hp
    show minLoadFold (fun h => h.vaddr) hs ≤ h.vaddr
    have hle := v2 h hm hp
    have hb := hvb h hm
    rw [Nat.mod_eq_of_lt hb] at hle
    exact hle
  · rcases v3 with heq | ⟨h, hm, hp, he⟩
    · obtain ⟨h0, hm0, hp0⟩ := hld
      have hle := v2 h0 hm0 hp0
      have hb := hvb h0 hm0
      refine ⟨h0, hm0, hp0, ?_⟩
      rw [Nat.mod_eq_of_lt hb] at hle
      show minLoadFold (fun h => h.vaddr) hs = h0.vaddr
      unfold minLoadFold
      omega
    · refine ⟨h, hm, hp, ?_⟩
      have hb := hvb h hm
      rw [Nat.mod_eq_of_lt hb] at he
      show minLoadFold (fun h => h.vaddr) hs = h.vaddr
      exact he
  · show toInt32 ((roundUpAlign freeStart alignment : Int) -
        (minLoadFold (fun h => h.paddr) hs : Int)) =
      (roundUpAlign freeStart alignment : Int) - (minLoadFold (fun h => h.paddr) hs : Int)
    exact hoffval
  · show ((w32 (((elf_entry % 4294967296 : Nat) : Int) +
        toInt32 ((roundUpAlign freeStart alignment : Int) -
          (minLoadFold (fun h => h.paddr) hs : Int)))) : Int) =
      (elf_entry : Int) + toInt32 ((roundUpAlign freeStart alignment : Int) -
        (minLoadFold (fun h => h.paddr) hs : Int))
    rw [hoffval, Nat.mod_eq_of_lt hent1]
    rw [hoffval] at hent2 hent3
    exact w32_inrange _ hent2 hent3

/-- C5 counterexample: with the largest free region starting at
`0xF0000000` and a kernel linked at 0, `load_paddr - link_paddr =
0xF0000000` does not fit a signed 32-bit `int`, and the recorded
`relocation_offset` is the truncated value `-0x10000000`, not the exact
signed difference. -/
theorem c5_counterexample :
    (vmm_load_guest_elf true true [hdrMin] 0 memZero 4026531840 1 12 memZero imageZero).1
      = BootOutcome.ok ∧
    (vmm_load_guest_elf true true [hdrMin] 0 memZero 4026531840 1 12 memZero
      imageZero).2.2.load_paddr = 4026531840 ∧
    (vmm_load_guest_elf true true [hdrMin] 0 memZero 4026531840 1 12 memZero
      imageZero).2.2.link_paddr = 0 ∧
    (vmm_load_guest_elf true true [hdrMin] 0 memZero 4026531840 1 12 memZero
      imageZero).2.2.relocation_offset = -268435456 ∧
    ((-268435456 : Int) ≠ (4026531840 : Int) - (0 : Int)) := by
  refine ⟨by decide, by decide, by decide, by decide, by decide⟩

/-- Witness for C5's amended statement at a small concrete ELF: one
`PT_LOAD` header at paddr/vaddr 2, free RAM from 5, alignment 4, so
`load_paddr = 8`, `link_paddr = 2`, `relocation_offset = 6` and
`entry = 10 + 6 = 16`. -/
theorem c5_witness :
    (vmm_load_guest_elf true true [hdrW] 10 fileSeven 5 4 2 memZero imageZero).1
      = BootOutcome.ok ∧
    (∀ h ∈ [hdrW], h.ptype = PT_LOAD →
      (vmm_load_guest_elf true true [hdrW] 10 fileSeven 5 4 2 memZero
        imageZero).2.2.link_paddr ≤ h.paddr) ∧
    (∃ h ∈ [hdrW], h.ptype = PT_LOAD ∧
      (vmm_load_guest_elf true true [hdrW] 10 fileSeven 5 4 2 memZero
        imageZero).2.2.link_paddr = h.paddr) ∧
    (∀ h ∈ [hdrW], h.ptype = PT_LOAD →
      (vmm_load_guest_elf true true [hdrW] 10 fileSeven 5 4 2 memZero
        imageZero).2.2.link_vaddr ≤ h.vaddr) ∧
    (∃ h ∈ [hdrW], h.ptype = PT_LOAD ∧
      (vmm_load_guest_elf true true [hdrW] 10 fileSeven 5 4 2 memZero
        imageZero).2.2.link_vaddr = h.vaddr) ∧
    (vmm_load_guest_elf true true [hdrW] 10 fileSeven 5 4 2 memZero
      imageZero).2.2.load_paddr = 8 ∧
    4 ∣ 8 ∧ 5 ≤ 8 ∧ 8 < 5 + 4 ∧
    (vmm_load_guest_elf true true [hdrW] 10 fileSeven 5 4 2 memZero
      imageZero).2.2.relocation_offset = ((8 : Nat) : Int) - ((2 : Nat) : Int) ∧
    ((vmm_load_guest_elf true true [hdrW] 10 fileSeven 5 4 2 memZero
      imageZero).2.2.entry : Int) = ((10 : Nat) : Int) +
      (vmm_load_guest_elf true true [hdrW] 10 fileSeven 5 4 2 memZero
        imageZero).2.2.relocation_offset ∧
    (vmm_load_guest_elf true true [hdrW] 10 fileSeven 5 4 2 memZero
      imageZero).2.2.alignment = 4 :=
  c5_loader_image_fields [hdrW] 10 fileSeven 5 4 2 memZero imageZero 8 2 6
    (by decide) (by decide) (by decide) (by decide) (by decide) (by decide)
    (by decide) (by decide) (by decide) (by decide) (by decide) (by decide)

/-- `alignUp2` is at least its argument. -/
theorem alignUp2_ge (n ps : Nat) : n ≤ alignUp2 n ps :=
  Nat.le_add_right _ _

/-- `alignUp2` overshoots by less than a page. -/
theorem alignUp2_lt (n ps : Nat) : alignUp2 n ps < n + 2 ^ ps := by
  unfold alignUp2
  have hp : 0 < 2 ^ ps := Nat.two_pow_pos ps
  have : (2 ^ ps - n % 2 ^ ps) % 2 ^ ps < 2 ^ ps := Nat.mod_lt _ hp
  omega

/-- Rounding up from inside the page ending at
`D + (2^ps - D % 2^ps)` lands exactly on that page boundary. -/
theorem alignUp2_pad (D s ps : Nat) (h1 : 1 ≤ s) (h2 : s ≤ 2 ^ ps - D % 2 ^ ps) :
    alignUp2 (D + s) ps = D + (2 ^ ps - D % 2 ^ ps) := by
  have hp : 0 < 2 ^ ps := Nat.two_pow_pos ps
  have hqlt : D % 2 ^ ps < 2 ^ ps := Nat.mod_lt _ hp
  have hdm := Nat.div_add_mod D (2 ^ ps)
  by_cases hqs : D % 2 ^ ps + s = 2 ^ ps
  · have hx : 2 ^ ps * (D / 2 ^ ps) + 2 ^ ps = 2 ^ ps * (D / 2 ^ ps + 1) := by ring
    have hds : D + s = 2 ^ ps * (D / 2 ^ ps + 1) := by omega
    unfold alignUp2
    rw [hds, Nat.mul_mod_right]
    have : (2 ^ ps - 0) % 2 ^ ps = 0 := by
      rw [Nat.sub_zero, Nat.mod_self]
    rw [this]
    omega
  · have hqs2 : D % 2 ^ ps + s < 2 ^ ps := by omega
    have hds : D + s = 2 ^ ps * (D / 2 ^ ps) + (D % 2 ^ ps + s) := by omega
    have hmod : (D + s) % 2 ^ ps = D % 2 ^ ps + s := by
      rw [hds, Nat.mul_add_mod]
      exact Nat.mod_eq_of_lt hqs2
    unfold alignUp2
    rw [hmod]
    have h3 : (2 ^ ps - (D % 2 ^ ps + s)) % 2 ^ ps = 2 ^ ps - (D % 2 ^ ps + s) :=
      Nat.mod_eq_of_lt (by omega)
    rw [h3]
    omega

/-- Exact characterization of the `vmm_load_guest_segment` copy loop from
any mid-loop state: the remaining file bytes land at `[D, D + remain)`,
zeros fill from there up to the end of the segment's last page (exactly
the segment end when the file bytes fill the whole rest), and everything
else is untouched. -/
theorem loadSegLoop_spec (file : Nat → Nat) (ps segment_size : Nat) :
    ∀ (fuel : Nat) (mem : Nat → Nat) (src D current remain : Nat),
      segment_size - current ≤ fuel →
      remain ≤ segment_size - current →
      ∀ a, loadSegLoop file ps segment_size fuel mem src D current remain a =
        if current < segment_size then
          (if D ≤ a ∧ a < D + remain then file (src + (a - D))
           else if D + remain ≤ a ∧ a <
              (if remain = segment_size - current then D + remain
               else alignUp2 (D + (segment_size - current)) ps) then 0
           else mem a)
        else mem a := by
  intro fuel
  induction fuel with
  | zero =>
    intro mem src D current remain hfuel hrem a
    have hge : ¬ current < segment_size := by omega
    simp only [loadSegLoop]
    rw [if_neg hge]
  | succ n ih =>
    intro mem src D current remain hfuel hrem a
    by_cases hc : current < segment_size
    · have hppos : 0 < 2 ^ ps := Nat.two_pow_pos ps
      have hofflt : D % 2 ^ ps < 2 ^ ps := Nat.mod_lt _ hppos
      simp only [loadSegLoop]
      rw [if_pos hc]
      by_cases hr : 0 < remain
      · rw [if_pos hr]
        set cl := if remain < 2 ^ ps - D % 2 ^ ps then remain else 2 ^ ps - D % 2 ^ ps with hcl
        have hcl1 : 1 ≤ cl := by rw [hcl]; split_ifs <;> omega
        have hcl2 : cl ≤ remain := by rw [hcl]; split_ifs <;> omega
        rw [ih (writeBytes mem D (fun k => file (src + k)) cl) (src + cl) (D + cl)
          (current + cl) (remain - cl) (by omega) (by omega) a]
        by_cases hc2 : current + cl < segment_size
        · rw [if_pos hc2, if_pos hc]
          simp only [writeBytes]
          by_cases hz : remain = segment_size - current
          · rw [if_pos (by omega : remain - cl = segment_size - (current + cl)), if_pos hz]
            split_ifs <;>
              first
                | rfl
                | omega
                | (congr 1; omega)
                | (exfalso; omega)
          · have hargs : D + cl + (segment_size - (current + cl))
                = D + (segment_size - current) := by omega
            rw [if_neg (by omega : ¬ (remain - cl = segment_size - (current + cl))),
              if_neg hz, hargs]
            have hge2 := alignUp2_ge (D + (segment_size - current)) ps
            split_ifs <;>
              first
                | rfl
                | omega
                | (congr 1; omega)
                | (exfalso; omega)
        · have hcleq : cl = remain ∧ remain = segment_size - current := by omega
          rw [if_neg hc2, if_pos hc]
          simp only [writeBytes]
          rw [if_pos hcleq.2]
          split_ifs <;>
            first
              | rfl
              | omega
              | (congr 1; omega)
              | (exfalso; omega)
      · have hrem0 : remain = 0 := by omega
        subst hrem0
        rw [if_neg hr]
        set pr := 2 ^ ps - D % 2 ^ ps with hpr
        have hpr1 : 1 ≤ pr := by omega
        rw [ih (writeBytes mem D (fun _ => 0) pr) src (D + pr) (current + pr) 0
          (by omega) (by omega) a]
        by_cases hc2 : current + pr < segment_size
        · rw [if_pos hc2, if_pos hc]
          have hargs : D + pr + (segment_size - (current + pr))
              = D + (segment_size - current) := by omega
          rw [if_neg (by omega : ¬ ((0 : Nat) = segment_size - (current + pr))), hargs]
          rw [if_neg (by omega : ¬ ((0 : Nat) = segment_size - current))]
          simp only [writeBytes]
          have hge2 := alignUp2_ge (D + (segment_size - current)) ps
          split_ifs <;>
            first
              | rfl
              | omega
              | (exfalso; omega)
        · rw [if_neg hc2, if_pos hc]
          have hpad := alignUp2_pad D (segment_size - current) ps (by omega) (by omega)
          rw [if_neg (by omega : ¬ ((0 : Nat) = segment_size - current)), hpad]
          simp only [writeBytes]
          split_ifs <;>
            first
              | rfl
              | omega
              | (exfalso; omega)
    · simp only [loadSegLoop]
      rw [if_neg hc, if_neg hc]

/-- `vmm_load_guest_segment` places the file bytes then zeros at the
destination, and touches nothing below the destination or at/after the
end of the segment's last page. -/
theorem vmm_load_guest_segment_spec (mem file : Nat → Nat) (ps src dest seg fs : Nat)
    (hfs : fs ≤ seg) :
    (∀ k, k < fs →
      vmm_load_guest_segment mem file ps src dest seg fs (dest + k) = file (src + k)) ∧
    (∀ k, fs ≤ k → k < seg →
      vmm_load_guest_segment mem file ps src dest seg fs (dest + k) = 0) ∧
    (∀ a, a < dest ∨ alignUp2 (dest + seg) ps ≤ a →
      vmm_load_guest_segment mem file ps src dest seg fs a = mem a) := by
  have hspec := loadSegLoop_spec file ps seg seg mem src dest 0 fs (by omega) (by omega)
  unfold vmm_load_guest_segment
  have hge0 := alignUp2_ge (dest + (seg - 0)) ps
  refine ⟨?_, ?_, ?_⟩
  · intro k hk
    rw [hspec (dest + k), if_pos (by omega : 0 < seg),
      if_pos (⟨by omega, by omega⟩ : dest ≤ dest + k ∧ dest + k < dest + fs)]
    congr 1
    omega
  · intro k h1 h2
    rw [hspec (dest + k), if_pos (by omega : 0 < seg),
      if_neg (by omega : ¬ (dest ≤ dest + k ∧ dest + k < dest + fs))]
    rw [if_neg (by omega : ¬ (fs = seg - 0))]
    rw [if_pos ⟨by omega, by omega⟩]
  · intro a ha
    rw [hspec a]
    by_cases h0 : 0 < seg
    · rw [if_pos h0]
      have hzle : (if fs = seg - 0 then dest + fs
          else alignUp2 (dest + (seg - 0)) ps) ≤ alignUp2 (dest + seg) ps := by
        have hge := alignUp2_ge (dest + seg) ps
        split_ifs with h
        · omega
        · have harg : dest + (seg - 0) = dest + seg := by omega
          rw [harg]
      have hgeS := alignUp2_ge (dest + seg) ps
      rw [if_neg (by omega : ¬ (dest ≤ a ∧ a < dest + fs)), if_neg (by omega)]
    · rw [if_neg h0]

/-- Loading a list of segments leaves every address outside all their
page hulls untouched. -/
theorem loadAllSegments_frame (file : Nat → Nat) (ps : Nat) (off : Int) :
    ∀ (hs : List ProgramHeader) (mem : Nat → Nat) (a : Nat),
      (∀ h ∈ hs, h.filesz % 4294967296 ≤ h.memsz % 4294967296) →
      (∀ h ∈ hs, h.ptype = PT_LOAD → h.memsz % 4294967296 ≠ 0 →
        a < w32 ((h.paddr : Int) + off) ∨
          alignUp2 (w32 ((h.paddr : Int) + off) + h.memsz % 4294967296) ps ≤ a) →
      loadAllSegments file ps off hs mem a = mem a := by
  intro hs
  induction hs with
  | nil =>
    intro mem a _ _
    rfl
  | cons h0 t ih =>
    intro mem a hfs hout
    have hfst : ∀ h ∈ t, h.filesz % 4294967296 ≤ h.memsz % 4294967296 :=
      fun h hm => hfs h (List.mem_cons_of_mem _ hm)
    have houtt : ∀ h ∈ t, h.ptype = PT_LOAD → h.memsz % 4294967296 ≠ 0 →
        a < w32 ((h.paddr : Int) + off) ∨
          alignUp2 (w32 ((h.paddr : Int) + off) + h.memsz % 4294967296) ps ≤ a :=
      fun h hm => hout h (List.mem_cons_of_mem _ hm)
    by_cases hl : h0.ptype = PT_LOAD ∧ h0.memsz % 4294967296 ≠ 0
    · have hstep : loadAllSegments file ps off (h0 :: t) mem = loadAllSegments file ps off t
          (vmm_load_guest_segment mem file ps (h0.offset % 4294967296)
            (w32 ((h0.paddr : Int) + off)) (h0.memsz % 4294967296)
            (h0.filesz % 4294967296)) := by
        simp only [loadAllSegments]
        rw [if_pos hl]
      rw [hstep, ih _ a hfst houtt]
      exact (vmm_load_guest_segment_spec mem file ps (h0.offset % 4294967296)
        (w32 ((h0.paddr : Int) + off)) (h0.memsz % 4294967296)
        (h0.filesz % 4294967296) (hfs h0 (List.mem_cons_self _ _))).2.2 a
        (hout h0 (List.mem_cons_self _ _) hl.1 hl.2)
    · have hstep : loadAllSegments file ps off (h0 :: t) mem
          = loadAllSegments file ps off t mem := by
        simp only [loadAllSegments]
        rw [if_neg hl]
      rw [hstep]
      exact ih mem a hfst houtt

/-- Loading a list of segments whose page hulls are pairwise disjoint
gives every loadable segment exactly its file bytes followed by zeros at
its destination. -/
theorem loadAllSegments_correct (file : Nat → Nat) (ps : Nat) (off : Int) :
    ∀ (hs : List ProgramHeader) (mem : Nat → Nat),
      (∀ h ∈ hs, h.filesz % 4294967296 ≤ h.memsz % 4294967296) →
      List.Pairwise (fun h1 h2 =>
        h1.ptype = PT_LOAD → h1.memsz % 4294967296 ≠ 0 →
        h2.ptype = PT_LOAD → h2.memsz % 4294967296 ≠ 0 →
        (alignUp2 (w32 ((h1.paddr : Int) + off) + h1.memsz % 4294967296) ps ≤
            alignDown2 (w32 ((h2.paddr : Int) + off)) ps ∨
         alignUp2 (w32 ((h2.paddr : Int) + off) + h2.memsz % 4294967296) ps ≤
            alignDown2 (w32 ((h1.paddr : Int) + off)) ps)) hs →
      ∀ h ∈ hs, h.ptype = PT_LOAD → h.memsz % 4294967296 ≠ 0 →
        (∀ k, k < h.filesz % 4294967296 →
          loadAllSegments file ps off hs mem (w32 ((h.paddr : Int) + off) + k)
            = file (h.offset % 4294967296 + k)) ∧
        (∀ k, h.filesz % 4294967296 ≤ k → k < h.memsz % 4294967296 →
          loadAllSegments file ps off hs mem (w32 ((h.paddr : Int) + off) + k) = 0) := by
  intro hs
  induction hs with
  | nil =>
    intro mem _ _ h hm
    simp at hm
  | cons h0 t ih =>
    intro mem hfs hpw h hm hload hnz
    obtain ⟨hpw0, hpwt⟩ := List.pairwise_cons.mp hpw
    have hfst : ∀ x ∈ t, x.filesz % 4294967296 ≤ x.memsz % 4294967296 :=
      fun x hx => hfs x (List.mem_cons_of_mem _ hx)
    rcases List.mem_cons.mp hm with he | he
    · subst he
      have hl : h.ptype = PT_LOAD ∧ h.memsz % 4294967296 ≠ 0 := ⟨hload, hnz⟩
      have hstep : loadAllSegments file ps off (h :: t) mem = loadAllSegments file ps off t
          (vmm_load_guest_segment mem file ps (h.offset % 4294967296)
            (w32 ((h.paddr : Int) + off)) (h.memsz % 4294967296)
            (h.filesz % 4294967296)) := by
        simp only [loadAllSegments]
        rw [if_pos hl]
      obtain ⟨s1, s2, s3⟩ := vmm_load_guest_segment_spec mem file ps (h.offset % 4294967296)
        (w32 ((h.paddr : Int) + off)) (h.memsz % 4294967296) (h.filesz % 4294967296)
        (hfs h (List.mem_cons_self _ _))
      have hframe : ∀ k, k < h.memsz % 4294967296 →
          loadAllSegments file ps off t
            (vmm_load_guest_segment mem file ps (h.offset % 4294967296)
              (w32 ((h.paddr : Int) + off)) (h.memsz % 4294967296)
              (h.filesz % 4294967296)) (w32 ((h.paddr : Int) + off) + k)
          = vmm_load_guest_segment mem file ps (h.offset % 4294967296)
              (w32 ((h.paddr : Int) + off)) (h.memsz % 4294967296)
              (h.filesz % 4294967296) (w32 ((h.paddr : Int) + off) + k) := by
        intro k hk
        apply loadAllSegments_frame file ps off t _ _ hfst
        intro h2 hm2 hl2 hnz2
        have hd := hpw0 h2 hm2 hload hnz hl2 hnz2
        have hdown0 : alignDown2 (w32 ((h.paddr : Int) + off)) ps
            ≤ w32 ((h.paddr : Int) + off) := by
          unfold alignDown2
          omega
        have hdown2 : alignDown2 (w32 ((h2.paddr : Int) + off)) ps
            ≤ w32 ((h2.paddr : Int) + off) := by
          unfold alignDown2
          omega
        have hup0 := alignUp2_ge (w32 ((h.paddr : Int) + off) + h.memsz % 4294967296) ps
        rcases hd with hd | hd
        · left
          omega
        · right
          omega
      have hfsh := hfs h (List.mem_cons_self _ _)
      refine ⟨?_, ?_⟩
      · intro k hk
        rw [hstep, hframe k (by omega), s1 k hk]
      · intro k h1 h2
        rw [hstep, hframe k h2, s2 k h1 h2]
    · by_cases hl0 : h0.ptype = PT_LOAD ∧ h0.memsz % 4294967296 ≠ 0
      · have hstep : loadAllSegments file ps off (h0 :: t) mem = loadAllSegments file ps off t
            (vmm_load_guest_segment mem file ps (h0.offset % 4294967296)
              (w32 ((h0.paddr : Int) + off)) (h0.memsz % 4294967296)
              (h0.filesz % 4294967296)) := by
          simp only [loadAllSegments]
          rw [if_pos hl0]
        rw [hstep]
        exact ih _ hfst hpwt h he hload hnz
      · have hstep : loadAllSegments file ps off (h0 :: t) mem
            = loadAllSegments file ps off t mem := by
          simp only [loadAllSegments]
          rw [if_neg hl0]
        rw [hstep]
        exact ih _ hfst hpwt h he hload hnz

/-- C4 amended: if the `PT_LOAD` segments' destination page hulls (their
destination ranges extended to page boundaries, which is how far the BSS
`memset` can reach) are pairwise disjoint, then after `vmm_load_guest_elf`
succeeds, guest memory at each loadable segment's relocated destination
holds exactly the file bytes from the segment's file offset for the first
`file_size` bytes and zero for the remaining `mem_size - file_size`
bytes. -/
theorem c4_segment_bytes (hs : List ProgramHeader) (elf_entry : Nat)
    (file : Nat → Nat) (freeStart alignment ps : Nat) (mem : Nat → Nat) (image : GuestImage)
    (off : Int)
    (hoff : off = toInt32 ((roundUpAlign freeStart alignment : Int) -
      (minLoadFold (fun h => h.paddr) hs : Int)))
    (hfs : ∀ h ∈ hs, h.filesz % 4294967296 ≤ h.memsz % 4294967296)
    (hdisj : List.Pairwise (fun h1 h2 =>
      h1.ptype = PT_LOAD → h1.memsz % 4294967296 ≠ 0 →
      h2.ptype = PT_LOAD → h2.memsz % 4294967296 ≠ 0 →
      (alignUp2 (w32 ((h1.paddr : Int) + off) + h1.memsz % 4294967296) ps ≤
          alignDown2 (w32 ((h2.paddr : Int) + off)) ps ∨
       alignUp2 (w32 ((h2.paddr : Int) + off) + h2.memsz % 4294967296) ps ≤
          alignDown2 (w32 ((h1.paddr : Int) + off)) ps)) hs)
    (h : ProgramHeader) (hm : h ∈ hs) (hload : h.ptype = PT_LOAD)
    (hnz : h.memsz % 4294967296 ≠ 0) :
    (vmm_load_guest_elf true true hs elf_entry file freeStart alignment ps mem image).1
      = BootOutcome.ok ∧
    (∀ k, k < h.filesz % 4294967296 →
      (vmm_load_guest_elf true true hs elf_entry file freeStart alignment ps mem
        image).2.1 (w32 ((h.paddr : Int) + off) + k)
        = file (h.offset % 4294967296 + k)) ∧
    (∀ k, h.filesz % 4294967296 ≤ k → k < h.memsz % 4294967296 →
      (vmm_load_guest_elf true true hs elf_entry file freeStart alignment ps mem
        image).2.1 (w32 ((h.paddr : Int) + off) + k) = 0) := by
  subst hoff
  have hmem2 : (vmm_load_guest_elf true true hs elf_entry file freeStart alignment ps mem
      image).2.1 = loadAllSegments file ps
      (toInt32 ((roundUpAlign freeStart alignment : Int) -
        (minLoadFold (fun h => h.paddr) hs : Int))) hs mem := rfl
  rw [hmem2]
  obtain ⟨g1, g2⟩ := loadAllSegments_correct file ps
    (toInt32 ((roundUpAlign freeStart alignment : Int) -
      (minLoadFold (fun h => h.paddr) hs : Int))) hs mem hfs hdisj h hm hload hnz
  exact ⟨rfl, g1, g2⟩

/-- C4 counterexample: two non-overlapping `PT_LOAD` segments sharing a
page (page size `2^2`): the first puts file byte 7 at guest address 2;
the second (pure BSS at address 0, loaded later) `memset`s to the end of
its page, zeroing address 2.  After loading, the first segment's
destination holds 0, not its file byte. -/
theorem c4_counterexample :
    (vmm_load_guest_elf true true [hdrHigh, hdrLow] 0 fileSeven 0 1 2 memZero
      imageZero).1 = BootOutcome.ok ∧
    hdrHigh.filesz ≤ hdrHigh.memsz ∧ hdrLow.filesz ≤ hdrLow.memsz ∧
    hdrHigh.memsz ≠ 0 ∧ hdrLow.memsz ≠ 0 ∧
    hdrLow.paddr + hdrLow.memsz ≤ hdrHigh.paddr ∧
    (vmm_load_guest_elf true true [hdrHigh, hdrLow] 0 fileSeven 0 1 2 memZero
      imageZero).2.2.relocation_offset = 0 ∧
    (vmm_load_guest_elf true true [hdrHigh, hdrLow] 0 fileSeven 0 1 2 memZero
      imageZero).2.1 (hdrHigh.paddr + 0) = 0 ∧
    fileSeven (hdrHigh.offset + 0) = 7 ∧ (0 : Nat) ≠ 7 := by
  refine ⟨by decide, by decide, by decide, by decide, by decide, by decide, by decide,
    by decide, by decide, by decide⟩

/-- Witness for C4's amended statement: a single `PT_LOAD` header (one
file byte, one BSS byte) loaded at its link address. -/
theorem c4_witness :
    (vmm_load_guest_elf true true [hdrW] 0 fileSeven 2 1 2 memZero imageZero).1
      = BootOutcome.ok ∧
    (∀ k, k < hdrW.filesz % 4294967296 →
      (vmm_load_guest_elf true true [hdrW] 0 fileSeven 2 1 2 memZero
        imageZero).2.1 (w32 ((hdrW.paddr : Int) + 0) + k)
        = fileSeven (hdrW.offset % 4294967296 + k)) ∧
    (∀ k, hdrW.filesz % 4294967296 ≤ k → k < hdrW.memsz % 4294967296 →
      (vmm_load_guest_elf true true [hdrW] 0 fileSeven 2 1 2 memZero
        imageZero).2.1 (w32 ((hdrW.paddr : Int) + 0) + k) = 0) :=
  c4_segment_bytes [hdrW] 0 fileSeven 2 1 2 memZero imageZero 0
    (by decide) (by decide) (by simp) hdrW (by simp) (by decide) (by decide)
